import Mathlib

/-!
# ghtml: layout composition over html/template

A shallow embedding of `ghtml.go` (the `HTMLEngine`, its compile pass
`loadTemplate`, the rebinding step `loadFunc`, `render`, and the per-request
entry points `SetLayout` / `Render` / `View`) together with the part of the
host libraries the engine drives: a small executable model of the
`html/template` namespace (shared function table, named templates), of
`filepath.Walk`, and of gin's `render.HTML`.

Go pointers are modelled by addresses into a heap of template namespaces: the
engine field `template` and the field `Template` of a `render.HTML` value are
addresses, so two values holding the same `*template.Template` observe each
other's updates.

A Go panic (a nil dereference, `template.Funcs` on a name that is no
identifier or on a value that is no acceptable function) is the result `none`
of the operation; the state a panic leaves behind is not modelled. An
execution of a template takes a bound on the depth of nested function calls
and is `none` when the bound is too small; results do not change when the
bound grows, and an execution that is `none` for every bound does not return
in Go.
-/

namespace Ghtml

deriving instance DecidableEq for Except

/-! ## Strings -/

/-- Remove every non-overlapping occurrence of `old`, leftmost first, as
`strings.Replace(s, old, "", -1)` does. The counter is the number of
characters of the current match still to drop. An empty `old` leaves the
text as it is. -/
def removeAllAux (old : List Char) : Nat → List Char → List Char
  | _, [] => []
  | k + 1, _ :: cs => removeAllAux old k cs
  | 0, c :: cs =>
    if old ≠ [] ∧ old.isPrefixOf (c :: cs) then removeAllAux old (old.length - 1) cs
    else c :: removeAllAux old 0 cs

/-- The Go call `strings.Replace(s, old, "", -1)`. -/
def stringsRemoveAll (s old : String) : String :=
  String.mk (removeAllAux old.data 0 s.data)

/-- Scan for the extension of the final path element: the argument is the path
reversed, the accumulator the characters already passed. -/
def extAux : List Char → List Char → List Char
  | [], _ => []
  | c :: cs, acc =>
    if c = '/' then []
    else if c = '.' then c :: acc
    else extAux cs (c :: acc)

/-- The Go call `filepath.Ext(path)`: the suffix starting at the final dot of
the final element of the path, empty when there is none. -/
def filepathExt (path : String) : String :=
  String.mk (extAux path.data.reverse [])

/-- The replacement table of the HTML escaper of `html/template`. -/
def htmlReplacement (c : Char) : List Char :=
  if c = Char.ofNat 0 then [Char.ofNat 0xFFFD]
  else if c = Char.ofNat 34 then "&#34;".data
  else if c = '&' then "&amp;".data
  else if c = Char.ofNat 39 then "&#39;".data
  else if c = '+' then "&#43;".data
  else if c = '<' then "&lt;".data
  else if c = '>' then "&gt;".data
  else [c]

/-- Escaping of a plain string written in HTML text context. -/
def htmlEscape (s : String) : String :=
  String.mk (s.data.flatMap htmlReplacement)

/-- An identifier: letters, digits and underscores, not starting with a
digit. The letters and digits are those of ASCII; Go also takes the other
letters and digits of Unicode, and names that have them are outside the
model. -/
def isIdent (s : List Char) : Bool :=
  match s with
  | [] => false
  | c :: _ => !c.isDigit && s.all (fun x => x.isAlphanum || x = '_')

/-- The check `goodName` of `text/template` on the name of a function: a
non-empty identifier. -/
def goodName (name : String) : Bool :=
  isIdent name.data

/-! ## Values, data and functions -/

/-- The data handed to a template: a map from field names to strings (a
`gin.H` whose values are strings); the Go value `nil` is the empty map. -/
abbrev Data := List (String × String)

/-- Value of the field `key`, if the map has it. -/
def Data.get : Data → String → Option String
  | [], _ => none
  | (k, v) :: rest, key => if k = key then some v else Data.get rest key

/-- What a template function returns: a plain `string`, escaped when written,
or a `template.HTML`, written as it is. -/
inductive Value where
  | str (s : String)
  | html (s : String)
  deriving DecidableEq, Repr

/-- One piece of the result of a user function. -/
inductive Piece where
  | lit (s : String)
  | arg (i : Nat)
  deriving DecidableEq, Repr

/-- A user function registered with `AddFunc`: it takes `arity` string
arguments and returns the concatenation of its pieces, as a plain string or as
`template.HTML`. -/
structure UserFunc where
  arity : Nat
  asHTML : Bool
  body : List Piece
  deriving DecidableEq, Repr

/-- The functions that occur in a function table of the engine. -/
inductive Func where
  /-- The placeholders of `emptyFunc`: `func() string { return "" }`. -/
  | emptyContent
  | emptySection
  | emptyRender
  /-- The closures of `loadFunc`, which capture the view name and the data. -/
  | contentFn (name : String) (data : Data)
  | sectionFn (name : String) (data : Data)
  | renderFn (name : String) (data : Data)
  /-- A function of the user table. -/
  | user (f : UserFunc)
  /-- A value of the user table that `template.Funcs` does not accept: not a
  function, or a function whose results are not one value, or a value and an
  error. -/
  | notFunc
  deriving DecidableEq, Repr

/-- Whether `template.Funcs` accepts the value. -/
def Func.good : Func → Bool
  | Func.notFunc => false
  | _ => true

/-- A Go `template.FuncMap`, kept as an association list read first match
first. -/
abbrev FuncMap := List (String × Func)

/-- The entry `m[key]`. -/
def FuncMap.get : FuncMap → String → Option Func
  | [], _ => none
  | (k, v) :: rest, key => if k = key then some v else FuncMap.get rest key

/-- The table without the entry of `key`. -/
def FuncMap.erase : FuncMap → String → FuncMap
  | [], _ => []
  | (k, v) :: rest, key =>
    if k = key then FuncMap.erase rest key else (k, v) :: FuncMap.erase rest key

/-- The assignment `m[key] = f`. -/
def FuncMap.insert (m : FuncMap) (key : String) (f : Func) : FuncMap :=
  (key, f) :: m.erase key

/-- The loop `for k, v := range extra { m[k] = v }`. -/
def FuncMap.addFuncs (m : FuncMap) : FuncMap → FuncMap
  | [] => m
  | (k, v) :: rest => FuncMap.insert (FuncMap.addFuncs m rest) k v

/-- Whether `template.Funcs` accepts the table: every name is a valid
identifier and every value an acceptable function. -/
def FuncMap.installable (m : FuncMap) : Bool :=
  m.all (fun p => goodName p.1 && p.2.good)

/-! ## Templates -/

/-- An argument of a function call in a template. -/
inductive Arg where
  | lit (s : String)
  | field (f : String)
  deriving DecidableEq, Repr

/-- A node of a parsed template: literal text, the action `.field`, or a call
`name arg ...` of a function of the table. -/
inductive Node where
  | text (s : String)
  | field (f : String)
  | call (fn : String) (args : List Arg)
  deriving DecidableEq, Repr

/-- A parse tree. -/
abbrev Tree := List Node

/-- The state of one `*template.Template` of `html/template` and of everything
it shares with its associated templates: its name, the delimiters new
associated templates inherit, the named templates (`none` for a template
created by `New` and not parsed so far) and the function table they all
share. -/
structure Namespace where
  name : String
  left : String
  right : String
  set : List (String × Option Tree)
  funcs : FuncMap
  deriving DecidableEq, Repr

/-- The entry of `name` in the set of named templates. -/
def lookupSet : List (String × Option Tree) → String → Option (Option Tree)
  | [], _ => none
  | (k, v) :: rest, key => if k = key then some v else lookupSet rest key

/-- The set without the entry of `key`. -/
def eraseSet : List (String × Option Tree) → String → List (String × Option Tree)
  | [], _ => []
  | (k, v) :: rest, key =>
    if k = key then eraseSet rest key else (k, v) :: eraseSet rest key

/-- The assignment `set[name] = t`. -/
def insertSet (s : List (String × Option Tree)) (key : String) (t : Option Tree) :
    List (String × Option Tree) :=
  (key, t) :: eraseSet s key

/-- The Go call `template.New(name)`: a namespace that holds only the
unparsed template `name`, with no function and the default delimiters. -/
def templateNew (name : String) : Namespace :=
  { name := name, left := "", right := "", set := [(name, none)], funcs := [] }

/-- The method `Delims`. -/
def Namespace.Delims (ns : Namespace) (left right : String) : Namespace :=
  { ns with left := left, right := right }

/-- The method `Funcs`: add the entries of `fm` to the shared table. The
method panics on a name that is no identifier and on a value that is no
acceptable function; `none` is that panic. -/
def Namespace.Funcs (ns : Namespace) (fm : FuncMap) : Option Namespace :=
  if fm.installable then some { ns with funcs := ns.funcs.addFuncs fm } else none

/-- The method `Lookup`: whether a template of that name is in the set. -/
def Namespace.Lookup (ns : Namespace) (name : String) : Bool :=
  (lookupSet ns.set name).isSome

/-- A template is compiled in the namespace when it is in the set with a
parse tree. -/
def Namespace.compiled (ns : Namespace) (name : String) : Bool :=
  match lookupSet ns.set name with
  | some (some _) => true
  | _ => false

/-- What the method `New(name)` leaves: the namespace the new template
belongs to, and the fresh namespace the receiver was reset to, if it was. -/
structure NewTemplate where
  tpl : Namespace
  reset : Option Namespace
  deriving DecidableEq, Repr

/-- The method `New(name)`: a new unparsed template `name` is put in the set.
A template that already has the name is first overwritten with a fresh
`template.New(name)`; within one directory walk the file names differ, so
that template can only be the receiver itself, which from then on is the fresh
namespace, while the new template stays in the old one. -/
def Namespace.New (ns : Namespace) (name : String) : NewTemplate :=
  { tpl := { ns with set := insertSet ns.set name none },
    reset := if name = ns.name then some (templateNew name) else none }

/-! ## Parsing -/

/-- A lexical item: literal text, or the inside of an action. -/
inductive Item where
  | text (s : List Char)
  | action (s : List Char)
  deriving DecidableEq, Repr

/-- Literal text collected so far, as an item; empty text gives none. -/
def flushText (acc : List Char) : List Item :=
  if acc = [] then [] else [Item.text acc.reverse]

/-- Split a template text at the delimiters `l` and `r`. The state is:
inside an action or not, inside a quoted string or not, the number of
characters of a delimiter still to skip, and the characters collected so far
(reversed). `none` is an action that is not closed. -/
def scan (l r : List Char) : Bool → Bool → Nat → List Char → List Char → Option (List Item)
  | false, _, _, acc, [] => some (flushText acc)
  | true, _, _, _, [] => none
  | a, q, k + 1, acc, _ :: cs => scan l r a q k acc cs
  | false, _, 0, acc, c :: cs =>
    if l.isPrefixOf (c :: cs) then
      (scan l r true false (l.length - 1) [] cs).map (fun rest => flushText acc ++ rest)
    else scan l r false false 0 (c :: acc) cs
  | true, q, 0, acc, c :: cs =>
    if !q && r.isPrefixOf (c :: cs) then
      (scan l r false false (r.length - 1) [] cs).map (fun rest => Item.action acc.reverse :: rest)
    else scan l r true (if c = Char.ofNat 34 then !q else q) 0 (c :: acc) cs

/-- Split the inside of an action at blanks outside quoted strings. -/
def splitTokens : Bool → List Char → List Char → List (List Char)
  | _, cur, [] => if cur = [] then [] else [cur.reverse]
  | q, cur, c :: cs =>
    if c = ' ' ∧ q = false then
      (if cur = [] then [] else [cur.reverse]) ++ splitTokens false [] cs
    else splitTokens (if c = Char.ofNat 34 then !q else q) (c :: cur) cs

/-- An argument token: a quoted string without a quote inside, or `.field`. -/
def parseArg (tok : List Char) : Option Arg :=
  match tok with
  | [] => none
  | c :: rest =>
    if c = '.' then (if isIdent rest then some (Arg.field (String.mk rest)) else none)
    else if c = Char.ofNat 34 then
      (match rest.reverse with
       | [] => none
       | d :: body =>
         if d = Char.ofNat 34 ∧ body.all (fun x => x ≠ Char.ofNat 34) then
           some (Arg.lit (String.mk body.reverse))
         else none)
    else none

/-- All argument tokens of a call. -/
def parseArgs : List (List Char) → Option (List Arg)
  | [] => some []
  | t :: ts =>
    match parseArg t, parseArgs ts with
    | some a, some rest => some (a :: rest)
    | _, _ => none

/-- Parse the inside of one action, with the function table in force. -/
def parseAction (funcs : FuncMap) (body : List Char) : Except String Node :=
  match splitTokens false [] body with
  | [] => Except.error "missing value for command"
  | tok :: args =>
    match tok with
    | [] => Except.error "missing value for command"
    | c :: rest =>
      if c = '.' then
        (if isIdent rest ∧ args = [] then Except.ok (Node.field (String.mk rest))
         else Except.error "unexpected token in command")
      else if isIdent tok then
        (match funcs.get (String.mk tok) with
         | none => Except.error ("function " ++ String.mk tok ++ " not defined")
         | some _ =>
           match parseArgs args with
           | some as => Except.ok (Node.call (String.mk tok) as)
           | none => Except.error "unexpected token in operand")
      else Except.error "unexpected token in command"

/-- Turn the lexical items into nodes. -/
def parseItems (funcs : FuncMap) : List Item → Except String Tree
  | [] => Except.ok []
  | Item.text s :: rest =>
    match parseItems funcs rest with
    | Except.ok t => Except.ok (Node.text (String.mk s) :: t)
    | Except.error e => Except.error e
  | Item.action b :: rest =>
    match parseAction funcs b with
    | Except.error e => Except.error e
    | Except.ok n =>
      match parseItems funcs rest with
      | Except.ok t => Except.ok (n :: t)
      | Except.error e => Except.error e

/-- A delimiter, the empty string standing for the default. -/
def delimOr (d dflt : String) : List Char :=
  if d = "" then dflt.data else d.data

/-- The parser of the template primitive, for the fragment of the template
language with literal text, field actions and calls of table functions with
string arguments, all in HTML text context. A name is callable only when the
function table binds it. -/
def parseText (left right : String) (funcs : FuncMap) (text : String) : Except String Tree :=
  match scan (delimOr left "\x7b\x7b") (delimOr right "\x7d\x7d") false false 0 [] text.data with
  | none => Except.error "unclosed action"
  | some items => parseItems funcs items

/-- The method `Parse` on the template `name` of the namespace: on success
the template gets its tree, on failure the namespace is left as it was. -/
def Namespace.Parse (ns : Namespace) (name text : String) : Namespace × Option String :=
  match parseText ns.left ns.right ns.funcs text with
  | Except.ok t => ({ ns with set := insertSet ns.set name (some t) }, none)
  | Except.error e => (ns, some e)

/-! ## The directory -/

/-- The `fs.FileInfo` of a walked path. -/
structure FileInfo where
  isDir : Bool
  deriving DecidableEq, Repr

/-- One call of the walk function by `filepath.Walk`: the path below the root
directory, relative to it and with slashes (`filepath.ToSlash` of
`filepath.Rel`, which cannot fail for a path the walk built from the root),
the file information (absent when `Lstat` failed) and what `os.ReadFile`
gives for the path. -/
structure WalkEntry where
  rel : String
  info : Option FileInfo
  read : Except String String
  deriving DecidableEq, Repr

/-- The contents of the root directory as `filepath.Walk` visits them, in
order; no path is visited twice. A directory that does not exist has no
entry. -/
structure Directory where
  entries : List WalkEntry
  nodup : (entries.map WalkEntry.rel).Nodup

/-! ## The engine -/

/-- The struct `HTMLEngine` (the lock apart); `template` is the address of the
root template, `none` for `nil`. -/
structure HTMLEngine where
  directory : String
  extension : String
  reload : Bool
  left : String
  right : String
  layout : String
  funcMap : FuncMap
  template : Option Nat
  deriving DecidableEq, Repr

/-- The program state: the engine (the package variable `engine`), the
template namespaces allocated so far (an address is an index), and a ghost
counter of the compile passes run so far. -/
structure World where
  r : HTMLEngine
  heap : List Namespace
  walks : Nat
  deriving DecidableEq, Repr

/-- The namespace the engine field `template` points to. -/
def World.ns (w : World) : Option Namespace :=
  match w.r.template with
  | none => none
  | some a => w.heap[a]?

/-- The function `New`. The user table starts as an empty map, as the code
makes it (the comment of `New` lists `funcMap: nil`). -/
def New (directory extension : String) : World :=
  { r := { directory := directory, extension := extension, reload := false,
           left := "\x7b\x7b", right := "\x7d\x7d", layout := "", funcMap := [],
           template := none },
    heap := [], walks := 0 }

/-- The method `Delim`. -/
def Delim (w : World) (left right : String) : World :=
  { w with r := { w.r with left := left, right := right } }

/-- The method `Layout`. -/
def Layout (w : World) (name : String) : World :=
  { w with r := { w.r with layout := name } }

/-- The method `Reload`. -/
def Reload (w : World) (reload : Bool) : World :=
  { w with r := { w.r with reload := reload } }

/-- The method `AddFunc`. -/
def AddFunc (w : World) (name : String) (function : Func) : World :=
  { w with r := { w.r with funcMap := w.r.funcMap.insert name function } }

/-- The method `emptyFunc`. -/
def emptyFunc : FuncMap :=
  [("content", Func.emptyContent), ("section", Func.emptySection),
   ("render", Func.emptyRender)]

/-- The function passed to `filepath.Walk` in `loadTemplate`, as a step on the
namespace under construction; the second component is the error returned, and
`none` is a panic of `Funcs`. -/
def walkFn (r : HTMLEngine) (ns : Namespace) (ent : WalkEntry) :
    Option (Namespace × Option String) :=
  match ent.info with
  | none => some (ns, none)
  | some info =>
    if info.isDir then some (ns, none)
    else if filepathExt ent.rel = r.extension then
      match ent.read with
      | Except.error e => some (ns, some e)
      | Except.ok buf =>
        let nt := ns.New ent.rel
        match nt.tpl.Funcs emptyFunc with
        | none => none
        | some t1 =>
          match t1.Funcs r.funcMap with
          | none => none
          | some t2 =>
            let parsed := t2.Parse ent.rel buf
            match nt.reset with
            | some fresh => some (fresh, parsed.2)
            | none => some parsed
    else some (ns, none)

/-- The Go call `filepath.Walk` with the function of `loadTemplate`: the
entries in order, stopping at the first error; `none` is a panic. -/
def Walk (r : HTMLEngine) : Namespace → List WalkEntry → Option (Namespace × Option String)
  | ns, [] => some (ns, none)
  | ns, ent :: rest =>
    match walkFn r ns ent with
    | none => none
    | some (ns1, none) => Walk r ns1 rest
    | some (ns1, some e) => some (ns1, some e)

/-- The compile pass of `loadTemplate`: the statements after the guard. The
root template is allocated and assigned to the engine before the walk. `none`
is a panic during the walk; the state a panic leaves is not modelled. -/
def compilePass (w : World) (d : Directory) : Option (World × Option String) :=
  match Walk w.r ((templateNew w.r.directory).Delims w.r.left w.r.right) d.entries with
  | none => none
  | some res =>
    some ({ r := { w.r with template := some w.heap.length },
            heap := w.heap ++ [res.1],
            walks := w.walks + 1 }, res.2)

/-- The method `loadTemplate`, run when the directory holds `d`. -/
def loadTemplate (w : World) (d : Directory) : Option (World × Option String) :=
  if !w.r.reload && w.r.template.isSome then some (w, none)
  else compilePass w d

/-- The function table built by `loadFunc`: the three closures, then the user
table over them. -/
def loadFuncMap (r : HTMLEngine) (name : String) (data : Data) : FuncMap :=
  FuncMap.addFuncs
    [("content", Func.contentFn name data), ("section", Func.sectionFn name data),
     ("render", Func.renderFn name data)]
    r.funcMap

/-- The method `loadFunc`; `none` is a panic: the nil dereference of a
`template` that was never built, or the panic of `Funcs`. -/
def loadFunc (w : World) (name : String) (data : Data) : Option World :=
  match w.r.template with
  | none => none
  | some a =>
    match w.heap[a]? with
    | none => none
    | some ns =>
      if ns.Lookup name then
        match ns.Funcs (loadFuncMap w.r name data) with
        | none => none
        | some ns1 => some { w with heap := w.heap.set a ns1 }
      else some w

/-- The struct `render.HTML` of gin. -/
structure HTML where
  Template : Option Nat
  Name : String
  Data : Data
  deriving DecidableEq, Repr

/-- The method `render`, run when the directory holds `d`. The error of
`loadTemplate` is only logged; `none` is a panic. -/
def render (w : World) (d : Directory) (name : String) (data : Data) (layout : String) :
    Option (World × HTML) :=
  match loadTemplate w d with
  | none => none
  | some (w1, _) =>
    if layout ≠ "" then
      match loadFunc w1 name data with
      | none => none
      | some w2 => some (w2, { Template := w2.r.template, Name := layout, Data := data })
    else some (w1, { Template := w1.r.template, Name := name, Data := data })

/-- The method `Instance`. -/
def Instance (w : World) (d : Directory) (name : String) (data : Data) : Option (World × HTML) :=
  render w d name data w.r.layout

/-! ## Execution -/

/-- The number of parameters of a function. -/
def Func.numIn : Func → Nat
  | Func.emptyContent => 0
  | Func.emptySection => 0
  | Func.emptyRender => 0
  | Func.contentFn _ _ => 0
  | Func.sectionFn _ _ => 1
  | Func.renderFn _ _ => 1
  | Func.user f => f.arity
  | Func.notFunc => 0

/-- The text of one piece of a user function. -/
def Piece.eval (args : List String) : Piece → String
  | Piece.lit s => s
  | Piece.arg i => args.getD i ""

/-- The result of a user function. -/
def UserFunc.apply (f : UserFunc) (args : List String) : Value :=
  let s := String.join (f.body.map (Piece.eval args))
  if f.asHTML then Value.html s else Value.str s

/-- The values of the arguments of a call; a field the data does not have is
no string. -/
def evalArgs (data : Data) : List Arg → Except String (List String)
  | [] => Except.ok []
  | Arg.lit s :: rest =>
    match evalArgs data rest with
    | Except.ok vs => Except.ok (s :: vs)
    | Except.error e => Except.error e
  | Arg.field f :: rest =>
    match data.get f with
    | none => Except.error "invalid value; expected string"
    | some v =>
      match evalArgs data rest with
      | Except.ok vs => Except.ok (v :: vs)
      | Except.error e => Except.error e

/-- The text one node writes, or the error that stops the execution; `call`
runs a function of the table. `none` is a call that does not return. -/
def execNode (call : Func → List String → Option (Except String Value)) (funcs : FuncMap)
    (data : Data) : Node → Option (Except String String)
  | Node.text s => some (Except.ok s)
  | Node.field f => some (Except.ok (htmlEscape ((data.get f).getD "")))
  | Node.call fn args =>
    match funcs.get fn with
    | none => some (Except.error (fn ++ " is not a defined function"))
    | some f =>
      if args.length ≠ f.numIn then some (Except.error ("wrong number of args for " ++ fn))
      else
        match evalArgs data args with
        | Except.error e => some (Except.error e)
        | Except.ok vs =>
          match call f vs with
          | none => none
          | some (Except.error e) => some (Except.error e)
          | some (Except.ok (Value.str s)) => some (Except.ok (htmlEscape s))
          | some (Except.ok (Value.html s)) => some (Except.ok s)

/-- Execute the nodes in order: the text written, and the error that stopped
the execution, if any. What was written before an error stays written. `none`
is an execution that does not return. -/
def execNodes (call : Func → List String → Option (Except String Value)) (funcs : FuncMap)
    (data : Data) : Tree → Option (String × Option String)
  | [] => some ("", none)
  | n :: rest =>
    match execNode call funcs data n with
    | none => none
    | some (Except.error e) => some ("", some e)
    | some (Except.ok s) =>
      match execNodes call funcs data rest with
      | none => none
      | some res => some (s ++ res.1, res.2)

/-- The method `ExecuteTemplate` on a template of the namespace `ns`: the text
written to the buffer and the error returned; `none` is an execution that does
not return. -/
def ExecuteTemplate (call : Func → List String → Option (Except String Value))
    (ns : Namespace) (name : String) (data : Data) : Option (String × Option String) :=
  match lookupSet ns.set name with
  | none => some ("", some ("html/template: " ++ name ++ " is undefined"))
  | some none => some ("", some ("html/template: " ++ name ++ " is an incomplete template"))
  | some (some t) => execNodes call ns.funcs data t

/-- The action `r.template.ExecuteTemplate(buf, name, data)` followed by
`buf.String()` inside a closure of `loadFunc`: the engine field is read when
the closure runs, and the error is dropped. A nil `template` is a panic, which
the template executor turns into an error of the call. -/
def captureTemplate (w : World) (call : Func → List String → Option (Except String Value))
    (name : String) (data : Data) : Option (Except String Value) :=
  match w.ns with
  | none => some (Except.error "invalid memory address or nil pointer dereference")
  | some ns =>
    match ExecuteTemplate call ns name data with
    | none => none
    | some res => some (Except.ok (Value.html res.1))

/-- The template name the closure `section` executes. -/
def fullSectionName (extension name sectionName : String) : String :=
  stringsRemoveAll name extension ++ "-" ++ sectionName

/-- Call a function of a table in the world `w`. The first argument bounds the
depth of nested function calls; `none` says the bound is too small. A call
that is `none` for every bound does not return in Go: the closures recurse
until the goroutine stack overflows, which ends the process. -/
def callFunc (w : World) : Nat → Func → List String → Option (Except String Value)
  | 0, _, _ => none
  | fuel + 1, f, args =>
    match f with
    | Func.emptyContent => some (Except.ok (Value.str ""))
    | Func.emptySection => some (Except.ok (Value.str ""))
    | Func.emptyRender => some (Except.ok (Value.str ""))
    | Func.contentFn name data => captureTemplate w (callFunc w fuel) name data
    | Func.sectionFn name data =>
      captureTemplate w (callFunc w fuel)
        (fullSectionName w.r.extension name (args.headD "")) data
    | Func.renderFn name data => captureTemplate w (callFunc w fuel) name data
    | Func.user u => some (Except.ok (u.apply args))
    | Func.notFunc => some (Except.error "not a function")

/-- The method `Render` of gin's `render.HTML`, in the world `w`: the body
written and the error returned; `none` says the depth bound is too small. An
empty name executes the root template, which has no parse tree. -/
def HTML.Render (w : World) (fuel : Nat) (h : HTML) : Option (String × Option String) :=
  match h.Template with
  | none => some ("", some "invalid memory address or nil pointer dereference")
  | some a =>
    match w.heap[a]? with
    | none => some ("", some "invalid memory address or nil pointer dereference")
    | some ns =>
      if h.Name = "" then
        some ("", some ("template: " ++ ns.name ++ " is an incomplete or empty template"))
      else ExecuteTemplate (callFunc w fuel) ns h.Name h.Data

/-! ## The request -/

/-- A value stored in the request context. -/
inductive Any where
  | str (s : String)
  | int (n : Int)
  deriving DecidableEq, Repr

/-- The part of `gin.Context` the package uses: the key/value store of the
request. -/
structure Context where
  keys : List (String × Any)
  deriving DecidableEq, Repr

/-- The method `Set` of the context. -/
def Context.Set (ctx : Context) (key : String) (value : Any) : Context :=
  { keys := (key, value) :: ctx.keys }

/-- The method `Get` of the context. -/
def Context.Get : List (String × Any) → String → Option Any
  | [], _ => none
  | (k, v) :: rest, key => if k = key then some v else Context.Get rest key

/-- The response written for a request: the status code, the render handed to
the context, and the body it wrote with its error (`none` when the depth bound
is too small for the render). -/
structure Response where
  code : Int
  render : HTML
  written : Option (String × Option String)
  deriving DecidableEq, Repr

/-- Whether gin writes a body for the status code. -/
def bodyAllowedForStatus (status : Int) : Bool :=
  if 100 ≤ status ∧ status ≤ 199 then false
  else if status = 204 then false
  else if status = 304 then false
  else true

/-- The method `Render` of the context: set the status and, when the status
allows a body, run the render. -/
def Context.Render (w : World) (fuel : Nat) (code : Int) (h : HTML) : Response :=
  if bodyAllowedForStatus code then
    { code := code, render := h, written := h.Render w fuel }
  else { code := code, render := h, written := some ("", none) }

/-- The method `HTML` of the context, for a gin engine whose `HTMLRender` is
this engine (as `examples/main.go` sets it). -/
def Context.HTML (w : World) (d : Directory) (fuel : Nat) (code : Int) (name : String)
    (data : Data) : Option (World × Response) :=
  match Instance w d name data with
  | none => none
  | some (w1, h) => some (w1, Context.Render w1 fuel code h)

/-- The function `SetLayout`. -/
def SetLayout (ctx : Context) (name : String) : Context :=
  ctx.Set "layout" (Any.str name)

/-- The function `Render`, run when the directory holds `d`; `none` is a
panic (the type assertion on a stored value that is no string). -/
def Render (w : World) (d : Directory) (fuel : Nat) (ctx : Context) (code : Int)
    (name : String) (data : Data) : Option (World × Response) :=
  match Context.Get ctx.keys "layout" with
  | none => Context.HTML w d fuel code name data
  | some (Any.str layout) =>
    (match render w d name data layout with
     | none => none
     | some (w1, h) => some (w1, Context.Render w1 fuel code h))
  | some (Any.int _) => none

/-- The function `View`. -/
def View (w : World) (d : Directory) (fuel : Nat) (ctx : Context) (name : String)
    (data : Data) : Option (World × Response) :=
  Render w d fuel ctx 200 name data

/-- One call of `render` in a sequence: the contents of the directory at that
moment and the arguments. -/
structure Call where
  dir : Directory
  name : String
  data : Data
  layout : String

/-- A sequence of `render` calls, one after the other. -/
def renders : World → List Call → Option World
  | w, [] => some w
  | w, c :: cs =>
    match render w c.dir c.name c.data c.layout with
    | none => none
    | some (w1, _) => renders w1 cs

/-- Every entry of the user table, and every placeholder the user table does
not shadow, is bound in the namespace as soon as it holds a compiled
template. -/
def FuncsInstalled (r : HTMLEngine) (ns : Namespace) : Prop :=
  (∃ t, ns.compiled t = true) →
    ∀ key f, FuncMap.get (FuncMap.addFuncs emptyFunc r.funcMap) key = some f →
      FuncMap.get ns.funcs key = some f

/-- The namespace a new template `rel` lives in once the walk function has
created it in `ns` and added the placeholders and the user table. -/
def walkTarget (r : HTMLEngine) (ns : Namespace) (rel : String) : Namespace :=
  { name := ns.name, left := ns.left, right := ns.right,
    set := insertSet ns.set rel none,
    funcs := (ns.funcs.addFuncs emptyFunc).addFuncs r.funcMap }

/-- The namespace under construction in a walk that met no file named as the
directory: it has the name and the delimiters of the engine, and its function
table is empty or reads as the placeholders with the user table over them. -/
def WalkState (r : HTMLEngine) (ns : Namespace) : Prop :=
  ns.name = r.directory ∧ ns.left = r.left ∧ ns.right = r.right ∧
    ((∀ k, FuncMap.get ns.funcs k = none) ∨
      ∀ k, FuncMap.get ns.funcs k = FuncMap.get (FuncMap.addFuncs emptyFunc r.funcMap) k)

/-- Whether `old` occurs in `s` at position `i`. -/
def occursAt (old s : List Char) (i : Nat) : Bool :=
  old.isPrefixOf (s.drop i)

/-! ## Fixtures -/

/-- The directory of the layout example: a view and a layout. -/
def dirHi : Directory :=
  ⟨[⟨"index.html", some ⟨false⟩, Except.ok "<p>\x7b\x7b.title\x7d\x7d</p>"⟩,
    ⟨"layouts", some ⟨true⟩, Except.error "read layouts: is a directory"⟩,
    ⟨"layouts/base.html", some ⟨false⟩, Except.ok "<html>\x7b\x7bcontent\x7d\x7d</html>"⟩],
   by decide⟩

/-- The same directory after the view file was edited. -/
def dirHiEdited : Directory :=
  ⟨[⟨"index.html", some ⟨false⟩, Except.ok "<h1>\x7b\x7b.title\x7d\x7d</h1>"⟩,
    ⟨"layouts", some ⟨true⟩, Except.error "read layouts: is a directory"⟩,
    ⟨"layouts/base.html", some ⟨false⟩, Except.ok "<html>\x7b\x7bcontent\x7d\x7d</html>"⟩],
   by decide⟩

/-- A directory with a layout that asks for a section the view does not
have. -/
def dirFooter : Directory :=
  ⟨[⟨"base.html", some ⟨false⟩,
      Except.ok "<html>\x7b\x7bcontent\x7d\x7d<hr>\x7b\x7bsection \"footer.html\"\x7d\x7d</html>"⟩,
    ⟨"index-header.html", some ⟨false⟩, Except.ok "<h1>\x7b\x7b.title\x7d\x7d</h1>"⟩,
    ⟨"index.html", some ⟨false⟩, Except.ok "<p>\x7b\x7b.title\x7d\x7d</p>"⟩],
   by decide⟩

/-- The world after a first render, without layout, of `index.html` over
`dirFooter`. -/
def worldFooter : World :=
  match loadTemplate (New "views" ".html") dirFooter with
  | some p => p.1
  | none => New "views" ".html"

/-- A user function that writes a fixed banner. -/
def bannerFunc : Func :=
  Func.user { arity := 0, asHTML := true, body := [Piece.lit "<b>banner</b>"] }

/-- A user function registered late. -/
def lateFunc : Func :=
  Func.user { arity := 0, asHTML := false, body := [Piece.lit "late"] }

/-- The world after a first render, without layout, of `index.html` over
`dirHi`: the namespace is cached. -/
def worldHi : World :=
  match loadTemplate (New "views" ".html") dirHi with
  | some p => p.1
  | none => New "views" ".html"

/-- A directory whose view calls the user function `greet`. -/
def dirGreet : Directory :=
  ⟨[⟨"base.html", some ⟨false⟩, Except.ok "<html>\x7b\x7bcontent\x7d\x7d</html>"⟩,
    ⟨"index.html", some ⟨false⟩, Except.ok "<p>\x7b\x7bgreet\x7d\x7d</p>"⟩],
   by decide⟩

/-- The function registered as `greet` before the first compile. -/
def greetEarly : Func :=
  Func.user { arity := 0, asHTML := false, body := [Piece.lit "early"] }

/-- The function registered as `greet` after the namespace was cached. -/
def greetLate : Func :=
  Func.user { arity := 0, asHTML := false, body := [Piece.lit "late"] }

/-- The world after `greet` was registered, the directory `dirGreet` was
compiled by a first render, and `greet` was registered again. -/
def worldGreet : World :=
  match loadTemplate (AddFunc (New "views" ".html") "greet" greetEarly) dirGreet with
  | some p => AddFunc p.1 "greet" greetLate
  | none => New "views" ".html"

/-- The namespace of `worldHi`. -/
def nsHi : Namespace :=
  match worldHi.ns with
  | some ns => ns
  | none => templateNew "views"

/-- The namespace of `worldFooter`. -/
def nsFooter : Namespace :=
  match worldFooter.ns with
  | some ns => ns
  | none => templateNew "views"

/-- The world after the compile pass over `dirHi` of an engine whose user table
binds `content`. -/
def worldBanner : World :=
  match compilePass (AddFunc (New "views" ".html") "content" bannerFunc) dirHi with
  | some p => p.1
  | none => New "views" ".html"

/-- The namespace of `worldBanner`. -/
def nsBanner : Namespace :=
  match worldBanner.ns with
  | some ns => ns
  | none => templateNew "views"

/-- The world after the layout of `dirHi` was rendered with itself as the
view. -/
def worldSelf : World :=
  match render (New "views" ".html") dirHi "layouts/base.html" [] "layouts/base.html" with
  | some p => p.1
  | none => New "views" ".html"

/-- The namespace of `worldSelf`. -/
def nsSelf : Namespace :=
  match worldSelf.ns with
  | some ns => ns
  | none => templateNew "views"

/-- A directory named `index.html` that holds one file, `index.html`: the
path of the file relative to the directory is the name of the directory. -/
def dirSameName : Directory :=
  ⟨[⟨"index.html", some ⟨false⟩, Except.ok "<p>first</p>"⟩], by decide⟩

/-- The same directory after the file was edited. -/
def dirSameNameEdited : Directory :=
  ⟨[⟨"index.html", some ⟨false⟩, Except.ok "<p>second</p>"⟩], by decide⟩

/-- A directory without any entry. -/
def dirEmpty : Directory :=
  ⟨[], by decide⟩

/-- A user function of one argument that writes a fixed text. -/
def userSection : Func :=
  Func.user { arity := 1, asHTML := true, body := [Piece.lit "USER"] }

/-- A directory in which the second file read does not parse. -/
def dirBroken : Directory :=
  ⟨[⟨"index.html", some ⟨false⟩, Except.ok "<p>\x7b\x7b.title\x7d\x7d</p>"⟩,
    ⟨"layouts", some ⟨true⟩, Except.error "read layouts: is a directory"⟩,
    ⟨"layouts/base.html", some ⟨false⟩, Except.ok "<html>\x7b\x7bcontent"⟩],
   by decide⟩

/-- The world of `worldHi` with reload switched on. -/
def worldHiReload : World :=
  Reload worldHi true

/-- The world after the reloading engine ran `loadTemplate` over `dirBroken`. -/
def worldBroken : World :=
  match loadTemplate worldHiReload dirBroken with
  | some p => p.1
  | none => worldHiReload

/-- A directory whose view lies in a folder named with the extension. -/
def dirSection : Directory :=
  ⟨[⟨"a", some ⟨true⟩, Except.error "read a: is a directory"⟩,
    ⟨"a/index-footer.html", some ⟨false⟩, Except.ok "footer of a/index"⟩,
    ⟨"a.html", some ⟨true⟩, Except.error "read a.html: is a directory"⟩,
    ⟨"a.html/index-footer.html", some ⟨false⟩, Except.ok "footer of a.html/index"⟩,
    ⟨"a.html/index.html", some ⟨false⟩, Except.ok "view"⟩,
    ⟨"base.html", some ⟨false⟩, Except.ok "\x7b\x7bsection \"footer.html\"\x7d\x7d"⟩],
   by decide⟩

/-- A directory with two views and one layout. -/
def dirTwoViews : Directory :=
  ⟨[⟨"a.html", some ⟨false⟩, Except.ok "A:\x7b\x7b.user\x7d\x7d"⟩,
    ⟨"b.html", some ⟨false⟩, Except.ok "B:\x7b\x7b.user\x7d\x7d"⟩,
    ⟨"base.html", some ⟨false⟩, Except.ok "<html>\x7b\x7bcontent\x7d\x7d</html>"⟩],
   by decide⟩

/-- The first of two renders created one after the other on a fresh engine
over `dirTwoViews`: the world right after its creation, and the render. -/
def firstRender : Option (World × HTML) :=
  render (New "views" ".html") dirTwoViews "a.html" [("user", "alice")] "base.html"

/-- The world after the second render was created as well. -/
def afterSecondRender : Option World :=
  match firstRender with
  | none => none
  | some (w1, _) =>
    (render w1 dirTwoViews "b.html" [("user", "bob")] "base.html").map Prod.fst

/-! ## Function tables and template sets -/

theorem FuncMap.get_erase (m : FuncMap) (k key : String) :
    FuncMap.get (m.erase k) key = if key = k then none else FuncMap.get m key := by
  induction m with
  | nil => simp [FuncMap.get, FuncMap.erase]
  | cons p rest ih =>
    obtain ⟨a, b⟩ := p
    by_cases hak : a = k
    · subst hak
      by_cases hk : key = a
      · subst hk; simp [FuncMap.erase, ih]
      · have : ¬ a = key := fun h => hk h.symm
        simp [FuncMap.erase, ih, FuncMap.get, hk, this]
    · by_cases hk : a = key
      · subst hk
        have : ¬ a = k := hak
        simp [FuncMap.erase, hak, FuncMap.get]
      · simp [FuncMap.erase, hak, FuncMap.get, hk, ih]

theorem FuncMap.get_insert (m : FuncMap) (k key : String) (f : Func) :
    FuncMap.get (m.insert k f) key = if k = key then some f else FuncMap.get m key := by
  unfold FuncMap.insert
  by_cases h : k = key
  · simp [FuncMap.get, h]
  · have h2 : ¬ key = k := fun e => h e.symm
    simp [FuncMap.get, h, FuncMap.get_erase, h2]

theorem FuncMap.get_addFuncs (m extra : FuncMap) (key : String) :
    FuncMap.get (m.addFuncs extra) key =
      match FuncMap.get extra key with
      | some f => some f
      | none => FuncMap.get m key := by
  induction extra with
  | nil => simp [FuncMap.addFuncs, FuncMap.get]
  | cons p rest ih =>
    obtain ⟨a, b⟩ := p
    by_cases h : a = key
    · simp [FuncMap.addFuncs, FuncMap.get_insert, FuncMap.get, h]
    · have h2 : ¬ key = a := fun e => h e.symm
      simp [FuncMap.addFuncs, FuncMap.insert, FuncMap.get, h, h2, FuncMap.get_erase, ih]

theorem FuncMap.installable_erase (m : FuncMap) (k : String)
    (h : FuncMap.installable m = true) : FuncMap.installable (m.erase k) = true := by
  induction m with
  | nil => rfl
  | cons p rest ih =>
    obtain ⟨a, b⟩ := p
    simp only [FuncMap.installable, List.all_cons, Bool.and_eq_true] at h ih ⊢
    by_cases hak : a = k
    · simp only [FuncMap.erase, hak, if_true]
      exact ih h.2
    · simp only [FuncMap.erase, hak, if_false, List.all_cons, Bool.and_eq_true]
      exact ⟨h.1, ih h.2⟩

theorem FuncMap.installable_addFuncs (m extra : FuncMap)
    (hm : FuncMap.installable m = true) (he : FuncMap.installable extra = true) :
    FuncMap.installable (m.addFuncs extra) = true := by
  induction extra with
  | nil => exact hm
  | cons p rest ih =>
    obtain ⟨a, b⟩ := p
    have he2 : (goodName a && b.good) = true ∧ FuncMap.installable rest = true := by
      simpa [FuncMap.installable] using he
    have h1 := FuncMap.installable_erase _ a (ih he2.2)
    have : FuncMap.installable ((a, b) :: (m.addFuncs rest).erase a) = true := by
      simp only [FuncMap.installable, List.all_cons, Bool.and_eq_true]
      exact ⟨by simpa using he2.1, h1⟩
    exact this

theorem lookupSet_eraseSet (s : List (String × Option Tree)) (k key : String) :
    lookupSet (eraseSet s k) key = if key = k then none else lookupSet s key := by
  induction s with
  | nil => simp [lookupSet, eraseSet]
  | cons p rest ih =>
    obtain ⟨a, b⟩ := p
    by_cases hak : a = k
    · subst hak
      by_cases hk : key = a
      · subst hk; simp [eraseSet, ih]
      · have : ¬ a = key := fun h => hk h.symm
        simp [eraseSet, ih, lookupSet, hk, this]
    · by_cases hk : a = key
      · subst hk
        simp [eraseSet, hak, lookupSet]
      · simp [eraseSet, hak, lookupSet, hk, ih]

theorem lookupSet_insertSet (s : List (String × Option Tree)) (k key : String)
    (t : Option Tree) :
    lookupSet (insertSet s k t) key = if k = key then some t else lookupSet s key := by
  unfold insertSet
  by_cases h : k = key
  · simp [lookupSet, h]
  · have h2 : ¬ key = k := fun e => h e.symm
    simp [lookupSet, h, lookupSet_eraseSet, h2]

theorem Funcs_installable (ns : Namespace) (fm : FuncMap)
    (h : FuncMap.installable fm = true) :
    ns.Funcs fm = some { ns with funcs := ns.funcs.addFuncs fm } := by
  simp [Namespace.Funcs, h]

theorem Funcs_eq_some (ns ns1 : Namespace) (fm : FuncMap) (h : ns.Funcs fm = some ns1) :
    FuncMap.installable fm = true ∧ ns1 = { ns with funcs := ns.funcs.addFuncs fm } := by
  unfold Namespace.Funcs at h
  split at h
  · rename_i hi
    cases h
    exact ⟨hi, rfl⟩
  · cases h

theorem emptyFunc_installable : FuncMap.installable emptyFunc = true := by
  decide

theorem loadFuncMap_installable (r : HTMLEngine) (name : String) (data : Data)
    (h : FuncMap.installable r.funcMap = true) :
    FuncMap.installable (loadFuncMap r name data) = true := by
  unfold loadFuncMap
  apply FuncMap.installable_addFuncs _ _ _ h
  rfl

theorem loadFuncMap_get (r : HTMLEngine) (name : String) (data : Data) (key : String) :
    FuncMap.get (loadFuncMap r name data) key =
      match FuncMap.get r.funcMap key with
      | some f => some f
      | none =>
        FuncMap.get [("content", Func.contentFn name data),
          ("section", Func.sectionFn name data), ("render", Func.renderFn name data)] key := by
  unfold loadFuncMap
  rw [FuncMap.get_addFuncs]

/-! ## Execution and the depth bound -/

theorem execNode_mono (c1 c2 : Func → List String → Option (Except String Value))
    (h : ∀ f a r, c1 f a = some r → c2 f a = some r) (funcs : FuncMap) (data : Data)
    (n : Node) (r : Except String String) (hr : execNode c1 funcs data n = some r) :
    execNode c2 funcs data n = some r := by
  cases n with
  | text s => exact hr
  | field f => exact hr
  | call fn args =>
    simp only [execNode] at hr ⊢
    cases hf : FuncMap.get funcs fn with
    | none => rw [hf] at hr; exact hr
    | some f =>
      rw [hf] at hr
      simp only at hr ⊢
      by_cases hlen : args.length ≠ f.numIn
      · rw [if_pos hlen] at hr ⊢; exact hr
      · rw [if_neg hlen] at hr ⊢
        cases he : evalArgs data args with
        | error e => rw [he] at hr; exact hr
        | ok vs =>
          rw [he] at hr
          simp only at hr ⊢
          cases hc : c1 f vs with
          | none => rw [hc] at hr; cases hr
          | some x => rw [hc] at hr; rw [h f vs x hc]; exact hr

theorem execNodes_mono (c1 c2 : Func → List String → Option (Except String Value))
    (h : ∀ f a r, c1 f a = some r → c2 f a = some r) (funcs : FuncMap) (data : Data)
    (t : Tree) : ∀ r, execNodes c1 funcs data t = some r → execNodes c2 funcs data t = some r := by
  induction t with
  | nil => intro r hr; exact hr
  | cons n rest ih =>
    intro r hr
    unfold execNodes at hr ⊢
    cases hn : execNode c1 funcs data n with
    | none => rw [hn] at hr; cases hr
    | some x =>
      rw [hn] at hr
      rw [execNode_mono c1 c2 h funcs data n x hn]
      cases x with
      | error e => exact hr
      | ok s =>
        simp only at hr ⊢
        cases hrest : execNodes c1 funcs data rest with
        | none => rw [hrest] at hr; cases hr
        | some res => rw [hrest] at hr; rw [ih res hrest]; exact hr

theorem ExecuteTemplate_mono (c1 c2 : Func → List String → Option (Except String Value))
    (h : ∀ f a r, c1 f a = some r → c2 f a = some r) (ns : Namespace) (name : String)
    (data : Data) (r : String × Option String)
    (hr : ExecuteTemplate c1 ns name data = some r) :
    ExecuteTemplate c2 ns name data = some r := by
  unfold ExecuteTemplate at hr ⊢
  split
  · rename_i hl; rw [hl] at hr; exact hr
  · rename_i hl; rw [hl] at hr; exact hr
  · rename_i t hl
    rw [hl] at hr
    exact execNodes_mono c1 c2 h _ _ _ r hr

theorem captureTemplate_mono (w : World)
    (c1 c2 : Func → List String → Option (Except String Value))
    (h : ∀ f a r, c1 f a = some r → c2 f a = some r) (name : String) (data : Data)
    (r : Except String Value) (hr : captureTemplate w c1 name data = some r) :
    captureTemplate w c2 name data = some r := by
  unfold captureTemplate at hr ⊢
  cases hns : w.ns with
  | none => rw [hns] at hr; exact hr
  | some ns =>
    rw [hns] at hr
    simp only at hr ⊢
    cases he : ExecuteTemplate c1 ns name data with
    | none => rw [he] at hr; cases hr
    | some res => rw [he] at hr; rw [ExecuteTemplate_mono c1 c2 h ns name data res he]; exact hr

theorem callFunc_succ (w : World) (n : Nat) :
    ∀ f a r, callFunc w n f a = some r → callFunc w (n + 1) f a = some r := by
  induction n with
  | zero => intro f a r h; simp [callFunc] at h
  | succ n ih =>
    intro f a r h
    cases f with
    | emptyContent => exact h
    | emptySection => exact h
    | emptyRender => exact h
    | contentFn name data =>
      simp only [callFunc] at h ⊢
      exact captureTemplate_mono w _ _ ih _ _ r h
    | sectionFn name data =>
      simp only [callFunc] at h ⊢
      exact captureTemplate_mono w _ _ ih _ _ r h
    | renderFn name data =>
      simp only [callFunc] at h ⊢
      exact captureTemplate_mono w _ _ ih _ _ r h
    | user u => exact h
    | notFunc => exact h

theorem callFunc_mono (w : World) (n m : Nat) (hnm : n ≤ m) :
    ∀ f a r, callFunc w n f a = some r → callFunc w m f a = some r := by
  induction hnm with
  | refl => intro f a r h; exact h
  | step _ ih => intro f a r h; exact callFunc_succ w _ f a r (ih f a r h)

theorem HTML.Render_mono (w : World) (n m : Nat) (hnm : n ≤ m) (h : HTML)
    (r : String × Option String) (hr : h.Render w n = some r) : h.Render w m = some r := by
  unfold HTML.Render at hr ⊢
  cases ht : h.Template with
  | none => rw [ht] at hr; exact hr
  | some a =>
    rw [ht] at hr
    simp only at hr ⊢
    cases hh : w.heap[a]? with
    | none => rw [hh] at hr; exact hr
    | some ns =>
      rw [hh] at hr
      simp only at hr ⊢
      by_cases hname : h.Name = ""
      · rw [if_pos hname] at hr ⊢; exact hr
      · rw [if_neg hname] at hr ⊢
        exact ExecuteTemplate_mono _ _ (callFunc_mono w n m hnm) _ _ _ r hr

/-! ## The heap and the compile guard -/

theorem World.ns_eq_some (w : World) (ns : Namespace) (h : w.ns = some ns) :
    ∃ a, w.r.template = some a ∧ w.heap[a]? = some ns := by
  unfold World.ns at h
  cases ht : w.r.template with
  | none => rw [ht] at h; cases h
  | some a => rw [ht] at h; exact ⟨a, rfl, h⟩

theorem World.ns_of (w : World) (a : Nat) (ns : Namespace) (ht : w.r.template = some a)
    (hn : w.heap[a]? = some ns) : w.ns = some ns := by
  simp [World.ns, ht, hn]

theorem compilePass_eq_some (w : World) (d : Directory) (w1 : World) (e : Option String)
    (h : compilePass w d = some (w1, e)) :
    ∃ ns1, Walk w.r ((templateNew w.r.directory).Delims w.r.left w.r.right) d.entries =
        some (ns1, e) ∧
      w1 = { r := { w.r with template := some w.heap.length }, heap := w.heap ++ [ns1],
             walks := w.walks + 1 } := by
  unfold compilePass at h
  split at h
  · cases h
  · rename_i res hres
    cases h
    exact ⟨res.1, by rw [hres], rfl⟩

theorem compilePass_ns (w : World) (d : Directory) (w1 : World) (e : Option String)
    (h : compilePass w d = some (w1, e)) :
    ∃ ns1, Walk w.r ((templateNew w.r.directory).Delims w.r.left w.r.right) d.entries =
        some (ns1, e) ∧ w1.ns = some ns1 ∧ w1.r.template = some w.heap.length ∧
      w1.heap = w.heap ++ [ns1] ∧ w1.walks = w.walks + 1 ∧
      w1.r = { w.r with template := some w.heap.length } := by
  obtain ⟨ns1, h1, h2⟩ := compilePass_eq_some w d w1 e h
  subst h2
  exact ⟨ns1, h1, by simp [World.ns], rfl, rfl, rfl, rfl⟩

theorem loadTemplate_cached (w : World) (d : Directory) (hr : w.r.reload = false)
    (ht : w.r.template.isSome = true) : loadTemplate w d = some (w, none) := by
  simp [loadTemplate, hr, ht]

theorem loadTemplate_compile (w : World) (d : Directory)
    (h : w.r.reload = true ∨ w.r.template = none) : loadTemplate w d = compilePass w d := by
  unfold loadTemplate
  rcases h with h | h
  · simp [h]
  · simp [h]

theorem loadTemplate_config (w : World) (d : Directory) (w1 : World) (e : Option String)
    (h : loadTemplate w d = some (w1, e)) :
    w1.r.funcMap = w.r.funcMap ∧ w1.r.reload = w.r.reload ∧ w1.r.extension = w.r.extension := by
  unfold loadTemplate at h
  split at h
  · cases h; exact ⟨rfl, rfl, rfl⟩
  · obtain ⟨ns1, _, h2⟩ := compilePass_eq_some w d w1 e h
    subst h2
    exact ⟨rfl, rfl, rfl⟩

/-! ## The rebinding step -/

theorem loadFunc_inv (w : World) (name : String) (data : Data) (a : Nat) (ns : Namespace)
    (ht : w.r.template = some a) (hn : w.heap[a]? = some ns) (w1 : World)
    (h : loadFunc w name data = some w1) :
    w1.r = w.r ∧ w1.walks = w.walks ∧
      ∃ ns1, w1.heap[a]? = some ns1 ∧ ns1.set = ns.set ∧
        ns1.funcs = (if ns.Lookup name then ns.funcs.addFuncs (loadFuncMap w.r name data)
                     else ns.funcs) := by
  have hlt : a < w.heap.length := by
    rcases Nat.lt_or_ge a w.heap.length with h | h
    · exact h
    · have : w.heap[a]? = none := by simp [h]
      rw [this] at hn; cases hn
  simp only [loadFunc, ht, hn] at h
  by_cases hl : ns.Lookup name = true
  · rw [if_pos hl] at h
    cases hf : ns.Funcs (loadFuncMap w.r name data) with
    | none => rw [hf] at h; cases h
    | some ns1 =>
      rw [hf] at h
      cases h
      obtain ⟨_, h2⟩ := Funcs_eq_some _ _ _ hf
      refine ⟨rfl, rfl, ns1, ?_, ?_, ?_⟩
      · simp [hlt]
      · rw [h2]
      · rw [h2]; simp [hl]
  · rw [if_neg hl] at h
    cases h
    exact ⟨rfl, rfl, ns, hn, rfl, by simp [hl]⟩

theorem loadFunc_isSome (w : World) (name : String) (data : Data) (a : Nat) (ns : Namespace)
    (ht : w.r.template = some a) (hn : w.heap[a]? = some ns)
    (hi : FuncMap.installable w.r.funcMap = true ∨ ns.Lookup name = false) :
    ∃ w1, loadFunc w name data = some w1 := by
  simp only [loadFunc, ht, hn]
  by_cases hl : ns.Lookup name = true
  · rw [if_pos hl]
    rcases hi with hi | hi
    · rw [Funcs_installable _ _ (loadFuncMap_installable w.r name data hi)]
      exact ⟨_, rfl⟩
    · rw [hi] at hl; cases hl
  · rw [if_neg hl]
    exact ⟨_, rfl⟩

theorem loadFunc_ns (w : World) (name : String) (data : Data) (ns : Namespace)
    (hns : w.ns = some ns) (hi : FuncMap.installable w.r.funcMap = true ∨ ns.Lookup name = false) :
    ∃ w1 ns1, loadFunc w name data = some w1 ∧ w1.r = w.r ∧ w1.walks = w.walks ∧
      w1.ns = some ns1 ∧ ns1.set = ns.set ∧
      ns1.funcs = (if ns.Lookup name then ns.funcs.addFuncs (loadFuncMap w.r name data)
                   else ns.funcs) := by
  obtain ⟨a, ht, hn⟩ := World.ns_eq_some w ns hns
  obtain ⟨w1, h1⟩ := loadFunc_isSome w name data a ns ht hn hi
  obtain ⟨h2, h3, ns1, h4, h5, h6⟩ := loadFunc_inv w name data a ns ht hn w1 h1
  exact ⟨w1, ns1, h1, h2, h3, World.ns_of w1 a ns1 (by rw [h2]; exact ht) h4, h5, h6⟩

theorem render_inv (w : World) (d : Directory) (name : String) (data : Data)
    (layout : String) (w0 : World) (e0 : Option String) (a : Nat) (ns : Namespace)
    (hlt : loadTemplate w d = some (w0, e0)) (ht : w0.r.template = some a)
    (hn : w0.heap[a]? = some ns) (w1 : World) (h : HTML)
    (hr : render w d name data layout = some (w1, h)) :
    h = { Template := some a, Name := if layout ≠ "" then layout else name, Data := data } ∧
      w1.r = w0.r ∧ w1.walks = w0.walks ∧
      ∃ ns1, w1.heap[a]? = some ns1 ∧ ns1.set = ns.set ∧
        ns1.funcs = (if layout ≠ "" ∧ ns.Lookup name = true
                     then ns.funcs.addFuncs (loadFuncMap w.r name data) else ns.funcs) := by
  have hfm : w0.r.funcMap = w.r.funcMap := (loadTemplate_config w d w0 e0 hlt).1
  simp only [render, hlt] at hr
  by_cases hl : layout = ""
  · simp only [hl, ne_eq, not_true_eq_false, if_false] at hr
    cases hr
    refine ⟨by simp [ht, hl], rfl, rfl, ns, hn, rfl, by simp [hl]⟩
  · simp only [ne_eq, hl, not_false_eq_true, if_true] at hr
    cases hf : loadFunc w0 name data with
    | none => rw [hf] at hr; cases hr
    | some w2 =>
      rw [hf] at hr
      cases hr
      obtain ⟨h2, h3, ns1, h4, h5, h6⟩ := loadFunc_inv w0 name data a ns ht hn w1 hf
      refine ⟨by simp [h2, ht, hl], h2, h3, ns1, h4, h5, ?_⟩
      rw [h6]
      simp [hl, loadFuncMap, hfm]

theorem render_isSome (w : World) (d : Directory) (name : String) (data : Data)
    (layout : String) (w0 : World) (e0 : Option String) (a : Nat) (ns : Namespace)
    (hlt : loadTemplate w d = some (w0, e0)) (ht : w0.r.template = some a)
    (hn : w0.heap[a]? = some ns)
    (hi : FuncMap.installable w.r.funcMap = true ∨ layout = "" ∨ ns.Lookup name = false) :
    ∃ w1 h, render w d name data layout = some (w1, h) := by
  have hfm : w0.r.funcMap = w.r.funcMap := (loadTemplate_config w d w0 e0 hlt).1
  simp only [render, hlt]
  by_cases hl : layout = ""
  · simp only [hl, ne_eq, not_true_eq_false, if_false]
    exact ⟨_, _, rfl⟩
  · simp only [ne_eq, hl, not_false_eq_true, if_true]
    have hi2 : FuncMap.installable w0.r.funcMap = true ∨ ns.Lookup name = false := by
      rcases hi with hi | hi | hi
      · left; rw [hfm]; exact hi
      · exact absurd hi hl
      · right; exact hi
    obtain ⟨w1, h1⟩ := loadFunc_isSome w0 name data a ns ht hn hi2
    rw [h1]
    exact ⟨_, _, rfl⟩

theorem renders_cached_inv (cs : List Call) :
    ∀ (w : World) (a : Nat) (ns : Namespace) (wf : World), w.r.reload = false →
      w.r.template = some a → w.heap[a]? = some ns → renders w cs = some wf →
      wf.r = w.r ∧ wf.walks = w.walks ∧ ∃ nsf, wf.heap[a]? = some nsf ∧ nsf.set = ns.set := by
  induction cs with
  | nil =>
    intro w a ns wf _ _ hn h
    cases h
    exact ⟨rfl, rfl, ns, hn, rfl⟩
  | cons c cs ih =>
    intro w a ns wf hr ht hn h
    have hc : loadTemplate w c.dir = some (w, none) :=
      loadTemplate_cached w c.dir hr (by simp [ht])
    simp only [renders] at h
    cases hrd : render w c.dir c.name c.data c.layout with
    | none => rw [hrd] at h; cases h
    | some p =>
      obtain ⟨w1, hh⟩ := p
      rw [hrd] at h
      simp only at h
      obtain ⟨_, h2, h3, ns1, h4, h5, _⟩ :=
        render_inv w c.dir c.name c.data c.layout w none a ns hc ht hn w1 hh hrd
      obtain ⟨g2, g3, nsf, g4, g5⟩ :=
        ih w1 a ns1 wf (by rw [h2]; exact hr) (by rw [h2]; exact ht) h4 h
      exact ⟨g2.trans h2, g3.trans h3, nsf, g4, g5.trans h5⟩

theorem renders_cached_isSome (cs : List Call) :
    ∀ (w : World) (a : Nat) (ns : Namespace), w.r.reload = false →
      w.r.template = some a → w.heap[a]? = some ns →
      FuncMap.installable w.r.funcMap = true → ∃ wf, renders w cs = some wf := by
  induction cs with
  | nil => intro w _ _ _ _ _ _; exact ⟨w, rfl⟩
  | cons c cs ih =>
    intro w a ns hr ht hn hi
    have hc : loadTemplate w c.dir = some (w, none) :=
      loadTemplate_cached w c.dir hr (by simp [ht])
    obtain ⟨w1, hh, hrd⟩ :=
      render_isSome w c.dir c.name c.data c.layout w none a ns hc ht hn (Or.inl hi)
    obtain ⟨_, h2, _, ns1, h4, _, _⟩ :=
      render_inv w c.dir c.name c.data c.layout w none a ns hc ht hn w1 hh hrd
    obtain ⟨wf, hwf⟩ := ih w1 a ns1 (by rw [h2]; exact hr) (by rw [h2]; exact ht) h4
      (by rw [h2]; exact hi)
    exact ⟨wf, by simp [renders, hrd, hwf]⟩

theorem renders_unchanged (cs : List Call) (w : World) (ns : Namespace)
    (hr : w.r.reload = false) (hns : w.ns = some ns)
    (hcs : ∀ c ∈ cs, c.layout = "" ∨ ns.Lookup c.name = false) : renders w cs = some w := by
  induction cs with
  | nil => rfl
  | cons c cs ih =>
    obtain ⟨a, ht, hn⟩ := World.ns_eq_some w ns hns
    have hc : loadTemplate w c.dir = some (w, none) :=
      loadTemplate_cached w c.dir hr (by simp [ht])
    have hstep : ∃ h, render w c.dir c.name c.data c.layout = some (w, h) := by
      rcases hcs c (List.mem_cons_self _ _) with hl | hl
      · exact ⟨{ Template := w.r.template, Name := c.name, Data := c.data },
          by simp [render, hl, hc]⟩
      · by_cases hl2 : c.layout = ""
        · exact ⟨{ Template := w.r.template, Name := c.name, Data := c.data },
            by simp [render, hl2, hc]⟩
        · exact ⟨{ Template := some a, Name := c.layout, Data := c.data },
            by simp [render, hl2, hc, loadFunc, ht, hn, hl]⟩
    obtain ⟨h, hh⟩ := hstep
    simp only [renders, hh]
    exact ih (fun c hc => hcs c (List.mem_cons_of_mem _ hc))

theorem render_loadTemplate (w : World) (d : Directory) (name : String) (data : Data)
    (layout : String) (w1 : World) (h : HTML)
    (hr : render w d name data layout = some (w1, h)) :
    ∃ w0 e0, loadTemplate w d = some (w0, e0) := by
  unfold render at hr
  cases hl : loadTemplate w d with
  | none => rw [hl] at hr; cases hr
  | some p => exact ⟨p.1, p.2, rfl⟩

/-! ## The compile pass -/

theorem templateNew_not_compiled (name t : String) :
    (templateNew name).compiled t = false := by
  unfold Namespace.compiled templateNew
  by_cases h : name = t <;> simp [lookupSet, h]

theorem Parse_funcs (ns : Namespace) (name text : String) :
    (ns.Parse name text).1.funcs = ns.funcs := by
  unfold Namespace.Parse
  split <;> rfl

theorem walkFn_eq_some (r : HTMLEngine) (ns : Namespace) (ent : WalkEntry) (ns1 : Namespace)
    (e : Option String) (h : walkFn r ns ent = some (ns1, e)) :
    ns1 = ns ∨
      ∃ buf info, ent.read = Except.ok buf ∧ ent.info = some info ∧ info.isDir = false ∧
        filepathExt ent.rel = r.extension ∧ FuncMap.installable r.funcMap = true ∧
        (ns1, e) =
          (if ent.rel = ns.name then
            (templateNew ent.rel, (Namespace.Parse (walkTarget r ns ent.rel) ent.rel buf).2)
           else Namespace.Parse (walkTarget r ns ent.rel) ent.rel buf) := by
  unfold walkFn at h
  cases hinfo : ent.info with
  | none => rw [hinfo] at h; simp only at h; cases h; exact Or.inl rfl
  | some info =>
    rw [hinfo] at h
    simp only at h
    by_cases hd : info.isDir = true
    · rw [if_pos hd] at h; cases h; exact Or.inl rfl
    · rw [if_neg hd] at h
      by_cases hx : filepathExt ent.rel = r.extension
      · rw [if_pos hx] at h
        cases hread : ent.read with
        | error err => rw [hread] at h; simp only at h; cases h; exact Or.inl rfl
        | ok buf =>
          rw [hread] at h
          simp only at h
          rw [Funcs_installable _ _ emptyFunc_installable] at h
          simp only at h
          by_cases hi : FuncMap.installable r.funcMap = true
          · rw [Funcs_installable _ _ hi] at h
            simp only [Namespace.New] at h
            right
            refine ⟨buf, info, rfl, rfl, by simpa using hd, hx, hi, ?_⟩
            by_cases hreset : ent.rel = ns.name
            · simp only [hreset, if_true] at h ⊢
              exact (Option.some.inj h).symm
            · simp only [hreset, if_false] at h ⊢
              exact (Option.some.inj h).symm
          · have hi2 : FuncMap.installable r.funcMap = false := by simpa using hi
            simp [Namespace.Funcs, hi2] at h
      · rw [if_neg hx] at h; cases h; exact Or.inl rfl

theorem walkFn_isSome (r : HTMLEngine) (ns : Namespace) (ent : WalkEntry)
    (hi : FuncMap.installable r.funcMap = true) : ∃ res, walkFn r ns ent = some res := by
  unfold walkFn
  cases ent.info with
  | none => exact ⟨_, rfl⟩
  | some info =>
    simp only
    by_cases hd : info.isDir = true
    · rw [if_pos hd]; exact ⟨_, rfl⟩
    · rw [if_neg hd]
      by_cases hx : filepathExt ent.rel = r.extension
      · rw [if_pos hx]
        cases ent.read with
        | error err => exact ⟨_, rfl⟩
        | ok buf =>
          simp only
          rw [Funcs_installable _ _ emptyFunc_installable]
          simp only
          rw [Funcs_installable _ _ hi]
          simp only
          cases (ns.New ent.rel).reset with
          | none => exact ⟨_, rfl⟩
          | some fresh => exact ⟨_, rfl⟩
      · rw [if_neg hx]; exact ⟨_, rfl⟩

theorem Walk_isSome (r : HTMLEngine) (hi : FuncMap.installable r.funcMap = true)
    (ents : List WalkEntry) : ∀ ns, ∃ res, Walk r ns ents = some res := by
  induction ents with
  | nil => intro ns; exact ⟨_, rfl⟩
  | cons ent rest ih =>
    intro ns
    obtain ⟨⟨ns1, e⟩, h⟩ := walkFn_isSome r ns ent hi
    cases e with
    | none =>
      obtain ⟨res, hres⟩ := ih ns1
      exact ⟨res, by simp [Walk, h, hres]⟩
    | some err => exact ⟨(ns1, some err), by simp [Walk, h]⟩

theorem loadTemplate_isSome (w : World) (d : Directory)
    (hi : FuncMap.installable w.r.funcMap = true) : ∃ res, loadTemplate w d = some res := by
  unfold loadTemplate
  split
  · exact ⟨_, rfl⟩
  · obtain ⟨res, hres⟩ := Walk_isSome w.r hi d.entries
      ((templateNew w.r.directory).Delims w.r.left w.r.right)
    exact ⟨({ r := { w.r with template := some w.heap.length }, heap := w.heap ++ [res.1],
              walks := w.walks + 1 }, res.2), by simp [compilePass, hres]⟩

theorem walkFn_installed (r : HTMLEngine) (ns : Namespace) (ent : WalkEntry)
    (ns1 : Namespace) (e : Option String) (hw : walkFn r ns ent = some (ns1, e))
    (h : FuncsInstalled r ns) : FuncsInstalled r ns1 := by
  rcases walkFn_eq_some r ns ent ns1 e hw with h1 | ⟨buf, info, _, _, _, _, _, heq⟩
  · rw [h1]; exact h
  · by_cases hreset : ent.rel = ns.name
    · simp only [hreset, if_true] at heq
      have : ns1 = templateNew ns.name := congrArg Prod.fst heq
      rw [this]
      rintro ⟨t, ht⟩
      rw [templateNew_not_compiled] at ht
      cases ht
    · simp only [hreset, if_false] at heq
      have hns1 : ns1 = (Namespace.Parse (walkTarget r ns ent.rel) ent.rel buf).1 :=
        congrArg Prod.fst heq
      intro _ key f hf
      rw [hns1, Parse_funcs]
      simp only [walkTarget]
      rw [FuncMap.get_addFuncs] at hf
      rw [FuncMap.get_addFuncs, FuncMap.get_addFuncs]
      cases hu : FuncMap.get r.funcMap key with
      | some u => rw [hu] at hf; simpa using hf
      | none =>
        rw [hu] at hf
        simp only at hf ⊢
        rw [hf]

theorem Walk_installed (r : HTMLEngine) (ents : List WalkEntry) :
    ∀ ns ns1 e, Walk r ns ents = some (ns1, e) → FuncsInstalled r ns →
      FuncsInstalled r ns1 := by
  induction ents with
  | nil => intro ns ns1 e hw h; simp only [Walk] at hw; cases hw; exact h
  | cons ent rest ih =>
    intro ns ns1 e hw h
    simp only [Walk] at hw
    cases hstep : walkFn r ns ent with
    | none => rw [hstep] at hw; cases hw
    | some p =>
      obtain ⟨ns2, e2⟩ := p
      rw [hstep] at hw
      have h2 := walkFn_installed r ns ent ns2 e2 hstep h
      cases e2 with
      | none => exact ih ns2 ns1 e hw h2
      | some err => simp only at hw; cases hw; exact h2

theorem compilePass_installed (w : World) (d : Directory) (w1 : World) (e : Option String)
    (ns : Namespace) (hc : compilePass w d = some (w1, e)) (hns : w1.ns = some ns) :
    FuncsInstalled w.r ns := by
  obtain ⟨ns1, h1, h2, _⟩ := compilePass_ns w d w1 e hc
  rw [h2] at hns
  cases hns
  apply Walk_installed w.r d.entries _ _ _ h1
  rintro ⟨t, ht⟩
  have : (templateNew w.r.directory).compiled t = false := templateNew_not_compiled _ _
  simp only [Namespace.compiled, Namespace.Delims] at ht this
  rw [this] at ht
  cases ht

/-- A walk that fails stopped at one entry: the entries before it were walked
without error, and the namespace left is what the failing step left. -/
theorem Walk_error (r : HTMLEngine) (ents : List WalkEntry) :
    ∀ ns ns1 e, Walk r ns ents = some (ns1, some e) →
      ∃ pre bad post nsp, ents = pre ++ bad :: post ∧ Walk r ns pre = some (nsp, none) ∧
        walkFn r nsp bad = some (ns1, some e) := by
  induction ents with
  | nil => intro ns ns1 e h; simp [Walk] at h
  | cons ent rest ih =>
    intro ns ns1 e h
    simp only [Walk] at h
    cases hstep : walkFn r ns ent with
    | none => rw [hstep] at h; cases h
    | some p =>
      obtain ⟨ns2, e2⟩ := p
      rw [hstep] at h
      cases e2 with
      | none =>
        simp only at h
        obtain ⟨pre, bad, post, nsp, h1, h2, h3⟩ := ih ns2 ns1 e h
        refine ⟨ent :: pre, bad, post, nsp, by simp [h1], ?_, h3⟩
        simp [Walk, hstep, h2]
      | some err =>
        simp only at h
        cases h
        exact ⟨[], ent, rest, ns, rfl, rfl, hstep⟩

theorem walkFn_skips (r : HTMLEngine) (ns : Namespace) (ent : WalkEntry)
    (h : ent.info = none ∨ ent.info = some ⟨true⟩ ∨ filepathExt ent.rel ≠ r.extension) :
    walkFn r ns ent = some (ns, none) := by
  unfold walkFn
  rcases h with h | h | h
  · rw [h]
  · rw [h]; rfl
  · cases ent.info with
    | none => rfl
    | some info =>
      simp only
      by_cases hd : info.isDir = true
      · rw [if_pos hd]
      · rw [if_neg hd, if_neg h]

theorem Walk_skips (r : HTMLEngine) (ents : List WalkEntry) :
    ∀ ns ns1 e,
      (∀ ent ∈ ents, ent.info = none ∨ ent.info = some ⟨true⟩ ∨
        filepathExt ent.rel ≠ r.extension) →
      Walk r ns ents = some (ns1, e) → ns1.funcs = ns.funcs := by
  induction ents with
  | nil => intro ns ns1 e _ h; simp only [Walk] at h; cases h; rfl
  | cons ent rest ih =>
    intro ns ns1 e hskip h
    simp only [Walk, walkFn_skips r ns ent (hskip ent (List.mem_cons_self _ _))] at h
    exact ih ns ns1 e (fun x hx => hskip x (List.mem_cons_of_mem _ hx)) h

/-! ## What a compile pass builds -/

theorem parseAction_congr (F1 F2 : FuncMap) (h : ∀ k, FuncMap.get F1 k = FuncMap.get F2 k)
    (body : List Char) : parseAction F1 body = parseAction F2 body := by
  simp only [parseAction, h]

theorem parseItems_congr (F1 F2 : FuncMap) (h : ∀ k, FuncMap.get F1 k = FuncMap.get F2 k)
    (items : List Item) : parseItems F1 items = parseItems F2 items := by
  induction items with
  | nil => rfl
  | cons it rest ih =>
    cases it with
    | text s => simp only [parseItems, ih]
    | action b => simp only [parseItems, ih, parseAction_congr F1 F2 h]

theorem parseText_congr (left right : String) (F1 F2 : FuncMap)
    (h : ∀ k, FuncMap.get F1 k = FuncMap.get F2 k) (text : String) :
    parseText left right F1 text = parseText left right F2 text := by
  simp only [parseText, parseItems_congr F1 F2 h]

theorem walkTarget_get (r : HTMLEngine) (ns : Namespace) (rel : String)
    (hs : (∀ k, FuncMap.get ns.funcs k = none) ∨
      ∀ k, FuncMap.get ns.funcs k = FuncMap.get (FuncMap.addFuncs emptyFunc r.funcMap) k)
    (k : String) :
    FuncMap.get (walkTarget r ns rel).funcs k =
      FuncMap.get (FuncMap.addFuncs emptyFunc r.funcMap) k := by
  simp only [walkTarget]
  rw [FuncMap.get_addFuncs, FuncMap.get_addFuncs, FuncMap.get_addFuncs]
  cases hu : FuncMap.get r.funcMap k with
  | some u => rfl
  | none =>
    simp only
    cases he : FuncMap.get emptyFunc k with
    | some f => rfl
    | none =>
      simp only
      rcases hs with hs | hs
      · exact hs k
      · rw [hs k, FuncMap.get_addFuncs, hu, he]

theorem walkFn_file (r : HTMLEngine) (ns : Namespace) (ent : WalkEntry) (info : FileInfo)
    (buf : String) (hi : ent.info = some info) (hd : info.isDir = false)
    (hx : filepathExt ent.rel = r.extension) (hb : ent.read = Except.ok buf) :
    walkFn r ns ent =
      if FuncMap.installable r.funcMap = true then
        some (if ent.rel = ns.name then
                (templateNew ent.rel, (Namespace.Parse (walkTarget r ns ent.rel) ent.rel buf).2)
              else Namespace.Parse (walkTarget r ns ent.rel) ent.rel buf)
      else none := by
  unfold walkFn
  rw [hi]
  simp only [hd, hx, hb]
  rw [Funcs_installable _ _ emptyFunc_installable]
  simp only [Bool.false_eq_true, if_false, if_true]
  by_cases hf : FuncMap.installable r.funcMap = true
  · rw [Funcs_installable _ _ hf, if_pos hf]
    simp only [Namespace.New]
    by_cases hreset : ent.rel = ns.name
    · simp only [hreset, if_true]; rfl
    · simp only [hreset, if_false]; rfl
  · have hf2 : FuncMap.installable r.funcMap = false := by simpa using hf
    rw [if_neg hf]
    simp [Namespace.Funcs, hf2]

theorem Parse_eq_none (ns ns1 : Namespace) (name text : String)
    (h : ns.Parse name text = (ns1, none)) :
    ∃ t, parseText ns.left ns.right ns.funcs text = Except.ok t ∧
      ns1 = { ns with set := insertSet ns.set name (some t) } := by
  unfold Namespace.Parse at h
  split at h
  · rename_i t ht
    exact ⟨t, ht, (congrArg Prod.fst h).symm⟩
  · have := congrArg Prod.snd h
    cases this

theorem walkFn_reflects (r : HTMLEngine) (ns ns1 : Namespace) (ent : WalkEntry)
    (hs : WalkState r ns) (hne : ent.rel ≠ r.directory)
    (hw : walkFn r ns ent = some (ns1, none)) :
    WalkState r ns1 ∧
      (∀ key, key ≠ ent.rel → lookupSet ns1.set key = lookupSet ns.set key) ∧
      (∀ info buf, ent.info = some info → info.isDir = false →
        filepathExt ent.rel = r.extension → ent.read = Except.ok buf →
        ∃ t, parseText r.left r.right (FuncMap.addFuncs emptyFunc r.funcMap) buf = Except.ok t ∧
          lookupSet ns1.set ent.rel = some (some t)) := by
  obtain ⟨hname, hleft, hright, hfuncs⟩ := hs
  have hne2 : ¬ ent.rel = ns.name := by rw [hname]; exact hne
  have hfile : ∀ buf, Namespace.Parse (walkTarget r ns ent.rel) ent.rel buf = (ns1, none) →
      WalkState r ns1 ∧
      (∀ key, key ≠ ent.rel → lookupSet ns1.set key = lookupSet ns.set key) ∧
      ∃ t, parseText r.left r.right (FuncMap.addFuncs emptyFunc r.funcMap) buf = Except.ok t ∧
        lookupSet ns1.set ent.rel = some (some t) := by
    intro buf hp
    obtain ⟨t, ht, hns1⟩ := Parse_eq_none _ _ _ _ hp
    have hcong := parseText_congr (walkTarget r ns ent.rel).left (walkTarget r ns ent.rel).right
      _ _ (walkTarget_get r ns ent.rel hfuncs) buf
    rw [hcong] at ht
    subst hns1
    refine ⟨⟨hname, hleft, hright, Or.inr (walkTarget_get r ns ent.rel hfuncs)⟩, ?_, t, ?_, ?_⟩
    · intro key hk
      have hk2 : ¬ ent.rel = key := fun h => hk h.symm
      simp [walkTarget, lookupSet_insertSet, hk2]
    · simpa [walkTarget, hleft, hright] using ht
    · simp [lookupSet_insertSet]
  refine ⟨?_, ?_, ?_⟩
  · rcases walkFn_eq_some r ns ent ns1 none hw with h1 | ⟨buf, info, _, _, _, _, _, heq⟩
    · rw [h1]; exact ⟨hname, hleft, hright, hfuncs⟩
    · rw [if_neg hne2] at heq
      exact (hfile buf heq.symm).1
  · rcases walkFn_eq_some r ns ent ns1 none hw with h1 | ⟨buf, info, _, _, _, _, _, heq⟩
    · rw [h1]; intro _ _; rfl
    · rw [if_neg hne2] at heq
      exact (hfile buf heq.symm).2.1
  · intro info buf hi hd hx hb
    rw [walkFn_file r ns ent info buf hi hd hx hb] at hw
    by_cases hf : FuncMap.installable r.funcMap = true
    · rw [if_pos hf, if_neg hne2] at hw
      exact (hfile buf (Option.some.inj hw)).2.2
    · rw [if_neg hf] at hw
      cases hw

theorem Walk_reflects (r : HTMLEngine) (ents : List WalkEntry) :
    ∀ ns nsf, WalkState r ns → (∀ e ∈ ents, e.rel ≠ r.directory) →
      (ents.map WalkEntry.rel).Nodup → Walk r ns ents = some (nsf, none) →
      WalkState r nsf ∧
        (∀ key, (∀ e ∈ ents, e.rel ≠ key) → lookupSet nsf.set key = lookupSet ns.set key) ∧
        (∀ ent ∈ ents, ∀ info buf, ent.info = some info → info.isDir = false →
          filepathExt ent.rel = r.extension → ent.read = Except.ok buf →
          ∃ t, parseText r.left r.right (FuncMap.addFuncs emptyFunc r.funcMap) buf =
              Except.ok t ∧
            lookupSet nsf.set ent.rel = some (some t)) := by
  induction ents with
  | nil =>
    intro ns nsf hs _ _ hw
    simp only [Walk] at hw
    cases hw
    exact ⟨hs, fun _ _ => rfl, fun ent hent => absurd hent (List.not_mem_nil _)⟩
  | cons ent rest ih =>
    intro ns nsf hs hne hnd hw
    simp only [Walk] at hw
    cases hstep : walkFn r ns ent with
    | none => rw [hstep] at hw; cases hw
    | some p =>
      obtain ⟨ns1, e1⟩ := p
      rw [hstep] at hw
      cases e1 with
      | some err => simp only at hw; cases hw
      | none =>
        simp only at hw
        have hnd2 : (∀ e ∈ rest, e.rel ≠ ent.rel) ∧ (rest.map WalkEntry.rel).Nodup := by
          simpa [List.nodup_cons] using hnd
        obtain ⟨s1, s2, s3⟩ :=
          walkFn_reflects r ns ns1 ent hs (hne ent (List.mem_cons_self _ _)) hstep
        obtain ⟨i1, i2, i3⟩ :=
          ih ns1 nsf s1 (fun e he => hne e (List.mem_cons_of_mem _ he)) hnd2.2 hw
        refine ⟨i1, ?_, ?_⟩
        · intro key hk
          rw [i2 key (fun e he => hk e (List.mem_cons_of_mem _ he))]
          exact s2 key (fun h => hk ent (List.mem_cons_self _ _) h.symm)
        · intro e he info buf hi hd hx hb
          rcases List.mem_cons.1 he with h | h
          · subst h
            obtain ⟨t, ht1, ht2⟩ := s3 info buf hi hd hx hb
            refine ⟨t, ht1, ?_⟩
            rw [i2 e.rel (fun e2 he2 => hnd2.1 e2 he2)]
            exact ht2
          · exact i3 e h info buf hi hd hx hb

theorem compilePass_reflects (w : World) (d : Directory) (w1 : World)
    (hc : compilePass w d = some (w1, none)) (hne : ∀ e ∈ d.entries, e.rel ≠ w.r.directory) :
    ∃ ns, w1.ns = some ns ∧
      ∀ ent ∈ d.entries, ∀ info buf, ent.info = some info → info.isDir = false →
        filepathExt ent.rel = w.r.extension → ent.read = Except.ok buf →
        ∃ t, parseText w.r.left w.r.right (FuncMap.addFuncs emptyFunc w.r.funcMap) buf =
            Except.ok t ∧
          lookupSet ns.set ent.rel = some (some t) := by
  obtain ⟨ns1, h1, h2, _⟩ := compilePass_ns w d w1 none hc
  refine ⟨ns1, h2, ?_⟩
  have hs : WalkState w.r ((templateNew w.r.directory).Delims w.r.left w.r.right) :=
    ⟨rfl, rfl, rfl, Or.inl (fun _ => rfl)⟩
  exact (Walk_reflects w.r d.entries _ ns1 hs hne d.nodup h1).2.2

/-! ## Auxiliary facts -/

theorem compiled_Lookup (ns : Namespace) (name : String) (h : ns.compiled name = true) :
    ns.Lookup name = true := by
  unfold Namespace.compiled at h
  unfold Namespace.Lookup
  cases hl : lookupSet ns.set name with
  | none => rw [hl] at h; cases h
  | some t => rfl

theorem ExecuteTemplate_not_compiled (call : Func → List String → Option (Except String Value))
    (ns : Namespace) (name : String) (data : Data) (h : ns.compiled name = false) :
    ∃ e, ExecuteTemplate call ns name data = some ("", some e) := by
  unfold Namespace.compiled at h
  unfold ExecuteTemplate
  cases hl : lookupSet ns.set name with
  | none => exact ⟨_, rfl⟩
  | some t =>
    cases t with
    | none => exact ⟨_, rfl⟩
    | some t => rw [hl] at h; cases h

theorem removeAllAux_skip (old : List Char) (xs ys : List Char) :
    removeAllAux old xs.length (xs ++ ys) = removeAllAux old 0 ys := by
  induction xs with
  | nil => rfl
  | cons x xs ih => simpa [removeAllAux] using ih

theorem removeAllAux_empty (l : List Char) : removeAllAux [] 0 l = l := by
  induction l with
  | nil => rfl
  | cons c cs ih => simp [removeAllAux, ih]

theorem removeAllAux_head (old : List Char) (h : old ≠ []) (rest : List Char) :
    removeAllAux old 0 (old ++ rest) = removeAllAux old 0 rest := by
  cases old with
  | nil => exact absurd rfl h
  | cons c cs =>
    have hp : (c :: cs).isPrefixOf (c :: (cs ++ rest)) = true := by
      rw [List.isPrefixOf_iff_prefix]
      exact ⟨rest, rfl⟩
    have := removeAllAux_skip (c :: cs) cs rest
    simp [removeAllAux, hp, this]

theorem removeAllAux_first (old : List Char) (h : old ≠ []) (rest : List Char) :
    ∀ pre : List Char, (∀ i, i < pre.length → occursAt old (pre ++ old ++ rest) i = false) →
      removeAllAux old 0 (pre ++ old ++ rest) = pre ++ removeAllAux old 0 rest := by
  intro pre
  induction pre with
  | nil => intro _; simpa using removeAllAux_head old h rest
  | cons x pre ih =>
    intro hocc
    have h0 : old.isPrefixOf (x :: (pre ++ (old ++ rest))) = false := by
      have := hocc 0 (by simp)
      simpa [occursAt] using this
    have hrest : ∀ i, i < pre.length → occursAt old (pre ++ old ++ rest) i = false := by
      intro i hi
      have := hocc (i + 1) (by simpa using hi)
      simpa [occursAt] using this
    have ih2 := ih hrest
    simp only [List.append_assoc] at ih2
    simp [removeAllAux, h0, ih2]

theorem removeAllAux_absent (old : List Char) :
    ∀ s : List Char, (∀ i, i < s.length → occursAt old s i = false) →
      removeAllAux old 0 s = s := by
  intro s
  induction s with
  | nil => intro _; rfl
  | cons x s ih =>
    intro hocc
    have h0 : old.isPrefixOf (x :: s) = false := by
      have := hocc 0 (by simp)
      simpa [occursAt] using this
    have hrest : ∀ i, i < s.length → occursAt old s i = false := by
      intro i hi
      have := hocc (i + 1) (by simpa using hi)
      simpa [occursAt] using this
    simp [removeAllAux, h0, ih hrest]

theorem stringsRemoveAll_first (e pre rest : String) (he : e ≠ "")
    (hocc : ∀ i, i < pre.length → occursAt e.data (pre ++ e ++ rest).data i = false) :
    stringsRemoveAll (pre ++ e ++ rest) e = pre ++ stringsRemoveAll rest e := by
  have hne : e.data ≠ [] := fun h => he (String.ext h)
  have hlen : pre.length = pre.data.length := rfl
  have := removeAllAux_first e.data hne rest.data pre.data (by
    intro i hi
    have := hocc i (by rw [hlen]; exact hi)
    simpa [String.data_append] using this)
  apply String.ext
  simp only [stringsRemoveAll, String.data_append]
  exact this

theorem stringsRemoveAll_absent (e s : String)
    (hocc : ∀ i, i < s.length → occursAt e.data s.data i = false) :
    stringsRemoveAll s e = s := by
  have hlen : s.length = s.data.length := rfl
  have := removeAllAux_absent e.data s.data (by
    intro i hi
    exact hocc i (by rw [hlen]; exact hi))
  apply String.ext
  simp only [stringsRemoveAll]
  exact this

theorem ExecuteTemplate_content_stuck (c : Func → List String → Option (Except String Value))
    (ns : Namespace) (name : String) (data : Data) (pre : String) (post : Tree)
    (ht : lookupSet ns.set name = some (some (Node.text pre :: Node.call "content" [] :: post)))
    (hf : FuncMap.get ns.funcs "content" = some (Func.contentFn name data))
    (hc : c (Func.contentFn name data) [] = none) :
    ExecuteTemplate c ns name data = none := by
  simp [ExecuteTemplate, ht, execNodes, execNode, hf, Func.numIn, evalArgs, hc]

/-- A layout that calls `content` while bound to the closure of that same
layout does not return: each execution calls the closure, which executes the
layout again. -/
theorem layout_as_own_view_never_returns (w : World) (ns : Namespace) (name : String)
    (data : Data) (pre : String) (post : Tree) (hns : w.ns = some ns)
    (ht : lookupSet ns.set name = some (some (Node.text pre :: Node.call "content" [] :: post)))
    (hf : FuncMap.get ns.funcs "content" = some (Func.contentFn name data)) :
    ∀ fuel, ExecuteTemplate (callFunc w fuel) ns name data = none := by
  intro fuel
  induction fuel with
  | zero => exact ExecuteTemplate_content_stuck _ ns name data pre post ht hf rfl
  | succ n ih =>
    apply ExecuteTemplate_content_stuck _ ns name data pre post ht hf
    simp only [callFunc, captureTemplate, hns, ih]

/-- The layout of `dirHi` rendered with itself as the view: the render is
created, and its execution returns for no depth bound. -/
theorem base_as_own_view_never_returns :
    ∀ fuel, (render (New "views" ".html") dirHi "layouts/base.html" [] "layouts/base.html").map
      (fun p => p.2.Render p.1 fuel) = some none := by
  intro fuel
  have h : render (New "views" ".html") dirHi "layouts/base.html" [] "layouts/base.html" =
      some (worldSelf, { Template := some 0, Name := "layouts/base.html", Data := [] }) := by
    decide
  rw [h]
  have hns : worldSelf.ns = some nsSelf := by decide
  have hr : HTML.Render worldSelf fuel
      { Template := some 0, Name := "layouts/base.html", Data := [] } =
      ExecuteTemplate (callFunc worldSelf fuel) nsSelf "layouts/base.html" [] := by
    have h0 : worldSelf.heap[0]? = some nsSelf := by decide
    simp [HTML.Render, h0]
  simp only [Option.map_some', hr]
  rw [layout_as_own_view_never_returns worldSelf nsSelf "layouts/base.html" [] "<html>"
    [Node.text "</html>"] hns (by decide) (by decide)]

/-! ## Claims -/

/-- C2: with the empty layout, `render` returns a render whose template name is
the view name and whose data is the data given, and the world after the call is
the world `loadTemplate` left: `loadFunc` does not run, so the function
bindings of the namespace are those `loadTemplate` left. The call panics
exactly when `loadTemplate` does, which it does not when the user table is one
`template.Funcs` accepts. -/
theorem render_no_layout_passthrough (w : World) (d : Directory) (name : String)
    (data : Data) :
    render w d name data "" =
        (loadTemplate w d).map
          (fun p => (p.1, { Template := p.1.r.template, Name := name, Data := data })) ∧
      (render w d name data "").map (fun p => p.1.ns.map Namespace.funcs) =
        (loadTemplate w d).map (fun p => p.1.ns.map Namespace.funcs) ∧
      (FuncMap.installable w.r.funcMap = true →
        ∃ w1 e, loadTemplate w d = some (w1, e) ∧
          render w d name data "" =
            some (w1, { Template := w1.r.template, Name := name, Data := data })) := by
  refine ⟨?_, ?_, ?_⟩
  · unfold render
    cases loadTemplate w d with
    | none => rfl
    | some p => simp
  · unfold render
    cases loadTemplate w d with
    | none => rfl
    | some p => simp
  · intro hi
    obtain ⟨⟨w1, e⟩, h⟩ := loadTemplate_isSome w d hi
    exact ⟨w1, e, h, by simp [render, h]⟩

/-- C2 at the view `index.html` of `dirHi`, on a fresh engine. -/
theorem render_no_layout_passthrough_witness :
    FuncMap.installable (New "views" ".html").r.funcMap = true ∧
      ∃ w1 e, loadTemplate (New "views" ".html") dirHi = some (w1, e) ∧
        render (New "views" ".html") dirHi "index.html" [("title", "Hi")] "" =
          some (w1, { Template := w1.r.template, Name := "index.html",
                      Data := [("title", "Hi")] }) :=
  ⟨by decide, (render_no_layout_passthrough (New "views" ".html") dirHi "index.html"
    [("title", "Hi")]).2.2 (by decide)⟩

/-- C9: `Render` uses the layout stored last by `SetLayout` for the request,
the empty string included, which renders the view itself whatever the default
layout of the engine is; when the request has no stored layout it goes through
`Instance`, which is `render` with the default layout of the engine. -/
theorem Render_layout_resolution :
    (∀ (w : World) (d : Directory) (fuel : Nat) (ctx : Context) (code : Int)
        (name : String) (data : Data) (layout : String),
        Render w d fuel (SetLayout ctx layout) code name data =
          (render w d name data layout).map
            (fun p => (p.1, Context.Render p.1 fuel code p.2))) ∧
    (∀ (w : World) (d : Directory) (fuel : Nat) (ctx : Context) (code : Int)
        (name : String) (data : Data),
        Render w d fuel (SetLayout ctx "") code name data =
          (loadTemplate w d).map (fun p => (p.1, Context.Render p.1 fuel code
            { Template := p.1.r.template, Name := name, Data := data }))) ∧
    (∀ (w : World) (d : Directory) (fuel : Nat) (ctx : Context) (code : Int)
        (name : String) (data : Data), Context.Get ctx.keys "layout" = none →
        Render w d fuel ctx code name data =
          (render w d name data w.r.layout).map
            (fun p => (p.1, Context.Render p.1 fuel code p.2))) ∧
    (∀ (w : World) (d : Directory) (name : String) (data : Data),
        Instance w d name data = render w d name data w.r.layout) := by
  refine ⟨?_, ?_, ?_, ?_⟩
  · intro w d fuel ctx code name data layout
    simp only [Render, SetLayout, Context.Set, Context.Get, if_true]
    cases render w d name data layout with
    | none => rfl
    | some p => rfl
  · intro w d fuel ctx code name data
    simp only [Render, SetLayout, Context.Set, Context.Get, if_true, render]
    cases loadTemplate w d with
    | none => rfl
    | some p => simp
  · intro w d fuel ctx code name data h
    simp only [Render, h, Context.HTML, Instance]
    cases render w d name data w.r.layout with
    | none => rfl
    | some p => rfl
  · intro w d name data
    rfl

/-- C9 at a request without a stored layout, on an engine whose default layout
is `layouts/base.html`. -/
theorem Render_layout_resolution_witness :
    Context.Get (Context.mk []).keys "layout" = none ∧
      Render (Layout (New "views" ".html") "layouts/base.html") dirHi 2 (Context.mk []) 200
          "index.html" [("title", "Hi")] =
        (render (Layout (New "views" ".html") "layouts/base.html") dirHi "index.html"
            [("title", "Hi")] "layouts/base.html").map
          (fun p => (p.1, Context.Render p.1 2 200 p.2)) :=
  ⟨by decide, Render_layout_resolution.2.2.1 _ dirHi 2 (Context.mk []) 200 "index.html"
    [("title", "Hi")] (by decide)⟩

/-- C3, as the code has it: when a compile pass fails, the engine points to the
namespace allocated by this pass, the namespaces allocated before are as they
were, and the new namespace is what the walk built from the entries before the
failing one followed by the failing step. -/
theorem loadTemplate_failure_installs_partial (w : World) (d : Directory) (w1 : World)
    (e : String) (h : loadTemplate w d = some (w1, some e)) :
    w1.r.template = some w.heap.length ∧
      (∀ (a : Nat) (ns : Namespace), w.heap[a]? = some ns → w1.heap[a]? = some ns) ∧
      ∃ ns1 pre bad post nsp, w1.ns = some ns1 ∧ w1.heap = w.heap ++ [ns1] ∧
        d.entries = pre ++ bad :: post ∧
        Walk w.r ((templateNew w.r.directory).Delims w.r.left w.r.right) pre =
          some (nsp, none) ∧
        walkFn w.r nsp bad = some (ns1, some e) := by
  have hc : compilePass w d = some (w1, some e) := by
    unfold loadTemplate at h
    split at h
    · cases h
    · exact h
  obtain ⟨ns1, h1, h2, h3, h4, _, _⟩ := compilePass_ns w d w1 (some e) hc
  obtain ⟨pre, bad, post, nsp, g1, g2, g3⟩ := Walk_error _ _ _ _ _ h1
  refine ⟨h3, ?_, ns1, pre, bad, post, nsp, h2, h4, g1, g2, g3⟩
  intro a ns ha
  have hlt : a < w.heap.length := by
    rcases Nat.lt_or_ge a w.heap.length with h | h
    · exact h
    · have : w.heap[a]? = none := by simp [h]
      rw [this] at ha; cases ha
  rw [h4, List.getElem?_append_left hlt]
  exact ha

/-- C3, as the code has it, at a reloading engine whose directory now holds a
layout that does not parse. -/
theorem loadTemplate_failure_installs_partial_witness :
    loadTemplate worldHiReload dirBroken = some (worldBroken, some "unclosed action") ∧
      worldBroken.r.template = some worldHiReload.heap.length ∧
      (∀ (a : Nat) (ns : Namespace), worldHiReload.heap[a]? = some ns →
        worldBroken.heap[a]? = some ns) ∧
      ∃ ns1 pre bad post nsp, worldBroken.ns = some ns1 ∧
        worldBroken.heap = worldHiReload.heap ++ [ns1] ∧
        dirBroken.entries = pre ++ bad :: post ∧
        Walk worldHiReload.r ((templateNew worldHiReload.r.directory).Delims
          worldHiReload.r.left worldHiReload.r.right) pre = some (nsp, none) ∧
        walkFn worldHiReload.r nsp bad = some (ns1, some "unclosed action") :=
  ⟨by decide, loadTemplate_failure_installs_partial worldHiReload dirBroken worldBroken
    "unclosed action" (by decide)⟩

/-- C3 as stated fails: the engine holds the namespace compiled from `dirHi`,
with both templates; the compile pass over `dirBroken` returns an error, and
afterwards the namespace of the engine is another one, in which the layout has
no parse tree. -/
theorem loadTemplate_all_or_nothing_counterexample :
    worldHiReload.ns.map (fun ns => ns.compiled "layouts/base.html") = some true ∧
      (loadTemplate worldHiReload dirBroken).map Prod.snd = some (some "unclosed action") ∧
      (loadTemplate worldHiReload dirBroken).map (fun p => p.1.ns) ≠ some worldHiReload.ns ∧
      (loadTemplate worldHiReload dirBroken).map (fun p => p.1.ns.map
        (fun ns => (ns.compiled "index.html", ns.Lookup "layouts/base.html",
          ns.compiled "layouts/base.html"))) = some (some (true, true, false)) := by
  decide

/-- C8 fails on the code: on a cached namespace the render of `a.html` for
alice is created, then the render of `b.html` for bob, and only then the first
render is executed. Executed right after its creation it writes the view of
alice; executed after the second creation it writes the view and the data of
bob. -/
theorem render_isolation_violated :
    firstRender.map (fun p => p.2.Render p.1 2) =
        some (some ("<html>A:alice</html>", none)) ∧
      (firstRender.bind (fun p => afterSecondRender.map (fun w2 => p.2.Render w2 2))) =
        some (some ("<html>B:bob</html>", none)) ∧
      firstRender.map (fun p => p.1.r.reload) = some false := by
  decide

/-- C4, as the code has it: `loadTemplate` runs a compile pass exactly when
reload is on or no
namespace was built so far, and it returns whenever the user table is one
`template.Funcs` accepts. With reload off, a sequence of render calls started
before any compile walks the directory once, the templates are those of the
first walk, and every later `loadTemplate` returns no error and leaves the
world as it is, whatever the directory holds. With reload on, every
`loadTemplate` installs the namespace built from the directory as it is now; a
pass without error over a directory in which no path is the name of the
directory leaves every readable file with the extension compiled from its
present text. The example: a view edited between two renders shows in the
second render with reload on, and does not with reload off. -/
theorem loadTemplate_cache_or_reload :
    (∀ (w : World) (d : Directory),
        ((w.r.reload = true ∨ w.r.template = none) → loadTemplate w d = compilePass w d) ∧
        (¬ (w.r.reload = true ∨ w.r.template = none) → loadTemplate w d = some (w, none)) ∧
        (∀ w1 e, loadTemplate w d = some (w1, e) →
          (w1.walks = w.walks + 1 ↔ (w.r.reload = true ∨ w.r.template = none)) ∧
          (¬ (w.r.reload = true ∨ w.r.template = none) → w1.walks = w.walks)) ∧
        (FuncMap.installable w.r.funcMap = true → ∃ res, loadTemplate w d = some res)) ∧
    (∀ (w : World) (c : Call) (cs : List Call) (wf : World),
        w.r.reload = false → w.r.template = none → renders w (c :: cs) = some wf →
        wf.walks = w.walks + 1 ∧
        ∃ ns0 e0 nsf,
          Walk w.r ((templateNew w.r.directory).Delims w.r.left w.r.right) c.dir.entries =
            some (ns0, e0) ∧
          wf.ns = some nsf ∧ nsf.set = ns0.set ∧
          ∀ d, loadTemplate wf d = some (wf, none)) ∧
    (∀ (w : World) (c : Call) (cs : List Call),
        w.r.reload = false → w.r.template = none → FuncMap.installable w.r.funcMap = true →
        ∃ wf, renders w (c :: cs) = some wf) ∧
    (∀ (w : World) (d : Directory) (w1 : World) (e : Option String),
        w.r.reload = true → loadTemplate w d = some (w1, e) →
        w1.walks = w.walks + 1 ∧
        ∃ ns1, Walk w.r ((templateNew w.r.directory).Delims w.r.left w.r.right) d.entries =
            some (ns1, e) ∧ w1.ns = some ns1) ∧
    (∀ (w : World) (d : Directory) (w1 : World),
        (w.r.reload = true ∨ w.r.template = none) → loadTemplate w d = some (w1, none) →
        (∀ e ∈ d.entries, e.rel ≠ w.r.directory) →
        ∃ ns, w1.ns = some ns ∧
          ∀ ent ∈ d.entries, ∀ info buf, ent.info = some info → info.isDir = false →
            filepathExt ent.rel = w.r.extension → ent.read = Except.ok buf →
            ∃ t, parseText w.r.left w.r.right (FuncMap.addFuncs emptyFunc w.r.funcMap) buf =
                Except.ok t ∧
              lookupSet ns.set ent.rel = some (some t)) ∧
    (∀ fuel,
      ((render (Reload (New "views" ".html") true) dirHi "index.html" [("title", "Hi")]
          "layouts/base.html").bind (fun p =>
        (render p.1 dirHiEdited "index.html" [("title", "Hi")] "layouts/base.html").map
          (fun q => (q.1.walks, q.2.Render q.1 (fuel + 1))))) =
        some (2, some ("<html><h1>Hi</h1></html>", none)) ∧
      ((render (New "views" ".html") dirHi "index.html" [("title", "Hi")]
          "layouts/base.html").bind (fun p =>
        (render p.1 dirHiEdited "index.html" [("title", "Hi")] "layouts/base.html").map
          (fun q => (q.1.walks, q.2.Render q.1 (fuel + 1))))) =
        some (1, some ("<html><p>Hi</p></html>", none))) := by
  refine ⟨?_, ?_, ?_, ?_, ?_, ?_⟩
  · intro w d
    by_cases h : w.r.reload = true ∨ w.r.template = none
    · have hc := loadTemplate_compile w d h
      refine ⟨fun _ => hc, fun hn => absurd h hn, ?_, ?_⟩
      · intro w1 e hl
        rw [hc] at hl
        obtain ⟨_, _, _, _, _, h5, _⟩ := compilePass_ns w d w1 e hl
        exact ⟨⟨fun _ => h, fun _ => h5⟩, fun hn => absurd h hn⟩
      · intro hi
        exact loadTemplate_isSome w d hi
    · have hr : w.r.reload = false := by
        cases hb : w.r.reload with
        | false => rfl
        | true => exact absurd (Or.inl hb) h
      have ht : w.r.template.isSome = true := by
        cases hb : w.r.template with
        | none => exact absurd (Or.inr hb) h
        | some a => rfl
      have hc := loadTemplate_cached w d hr ht
      refine ⟨fun hp => absurd hp h, fun _ => hc, ?_, fun _ => ⟨_, hc⟩⟩
      intro w1 e hl
      rw [hc] at hl
      cases hl
      exact ⟨⟨fun hw => absurd hw (by omega), fun hp => absurd hp h⟩, fun _ => rfl⟩
  · intro w c cs wf hr ht hrs
    simp only [renders] at hrs
    cases hrd : render w c.dir c.name c.data c.layout with
    | none => rw [hrd] at hrs; cases hrs
    | some p =>
      obtain ⟨w1, hh⟩ := p
      rw [hrd] at hrs
      simp only at hrs
      obtain ⟨w0, e0, hl⟩ := render_loadTemplate w c.dir c.name c.data c.layout w1 hh hrd
      have hc : compilePass w c.dir = some (w0, e0) := by
        rw [← loadTemplate_compile w c.dir (Or.inr ht)]; exact hl
      obtain ⟨ns0, g1, g2, g3, g4, g5, g6⟩ := compilePass_ns w c.dir w0 e0 hc
      have hn0 : w0.heap[w.heap.length]? = some ns0 := by rw [g4]; simp
      obtain ⟨_, i2, i3, ns1, i4, i5, _⟩ :=
        render_inv w c.dir c.name c.data c.layout w0 e0 _ ns0 hl g3 hn0 w1 hh hrd
      have hr1 : w1.r.reload = false := by rw [i2, g6]; exact hr
      have ht1 : w1.r.template = some w.heap.length := by rw [i2]; exact g3
      obtain ⟨j1, j2, nsf, j3, j4⟩ := renders_cached_inv cs w1 _ ns1 wf hr1 ht1 i4 hrs
      refine ⟨by rw [j2, i3, g5], ns0, e0, nsf, g1, ?_, j4.trans i5, ?_⟩
      · exact World.ns_of wf _ nsf (by rw [j1]; exact ht1) j3
      · intro d
        exact loadTemplate_cached wf d (by rw [j1]; exact hr1) (by rw [j1, ht1]; rfl)
  · intro w c cs hr ht hi
    obtain ⟨⟨w0, e0⟩, hl⟩ := loadTemplate_isSome w c.dir hi
    have hc : compilePass w c.dir = some (w0, e0) := by
      rw [← loadTemplate_compile w c.dir (Or.inr ht)]; exact hl
    obtain ⟨ns0, _, _, g3, g4, _, g6⟩ := compilePass_ns w c.dir w0 e0 hc
    have hn0 : w0.heap[w.heap.length]? = some ns0 := by rw [g4]; simp
    obtain ⟨w1, hh, hrd⟩ :=
      render_isSome w c.dir c.name c.data c.layout w0 e0 _ ns0 hl g3 hn0 (Or.inl hi)
    obtain ⟨_, i2, _, ns1, i4, _, _⟩ :=
      render_inv w c.dir c.name c.data c.layout w0 e0 _ ns0 hl g3 hn0 w1 hh hrd
    obtain ⟨wf, hwf⟩ := renders_cached_isSome cs w1 _ ns1 (by rw [i2, g6]; exact hr)
      (by rw [i2]; exact g3) i4 (by rw [i2, g6]; exact hi)
    exact ⟨wf, by simp [renders, hrd, hwf]⟩
  · intro w d w1 e hr hl
    rw [loadTemplate_compile w d (Or.inl hr)] at hl
    obtain ⟨ns1, g1, g2, _, _, g5, _⟩ := compilePass_ns w d w1 e hl
    exact ⟨g5, ns1, g1, g2⟩
  · intro w d w1 h hl hne
    rw [loadTemplate_compile w d h] at hl
    exact compilePass_reflects w d w1 hl hne
  · intro fuel
    exact ⟨rfl, rfl⟩

/-- C4, as the code has it, on a fresh engine with reload off: the compile pass
over `dirHi` leaves
both files compiled from their text, and two render calls with the directory
edited between them run through. -/
theorem loadTemplate_cache_or_reload_witness :
    (loadTemplate (New "views" ".html") dirHi = some (worldHi, none) ∧
      (∀ e ∈ dirHi.entries, e.rel ≠ (New "views" ".html").r.directory) ∧
      ∃ ns, worldHi.ns = some ns ∧
        ∀ ent ∈ dirHi.entries, ∀ info buf, ent.info = some info → info.isDir = false →
          filepathExt ent.rel = (New "views" ".html").r.extension →
          ent.read = Except.ok buf →
          ∃ t, parseText (New "views" ".html").r.left (New "views" ".html").r.right
              (FuncMap.addFuncs emptyFunc (New "views" ".html").r.funcMap) buf =
                Except.ok t ∧
            lookupSet ns.set ent.rel = some (some t)) ∧
    ((New "views" ".html").r.reload = false ∧ (New "views" ".html").r.template = none ∧
      FuncMap.installable (New "views" ".html").r.funcMap = true ∧
      ∃ wf, renders (New "views" ".html")
          [⟨dirHi, "index.html", [("title", "Hi")], "layouts/base.html"⟩,
           ⟨dirHiEdited, "index.html", [("title", "Hi")], ""⟩] = some wf) :=
  ⟨⟨by decide, by decide,
      loadTemplate_cache_or_reload.2.2.2.2.1 (New "views" ".html") dirHi worldHi
        (Or.inr rfl) (by decide) (by decide)⟩,
   ⟨rfl, rfl, rfl, loadTemplate_cache_or_reload.2.2.1 (New "views" ".html")
      ⟨dirHi, "index.html", [("title", "Hi")], "layouts/base.html"⟩
      [⟨dirHiEdited, "index.html", [("title", "Hi")], ""⟩] rfl rfl rfl⟩⟩

/-- C4 as stated fails for a file whose path relative to the directory is the
name of the directory: `New` of `html/template` then resets the root template,
and the file is compiled into a namespace the engine no longer points to. With
reload on, over the directory `index.html` that holds the file `index.html`,
the render of `index.html` fails as incomplete before the edit and after it,
in two compile passes. -/
theorem loadTemplate_cache_or_reload_counterexample :
    (Reload (New "index.html" ".html") true).r.reload = true ∧
      (render (Reload (New "index.html" ".html") true) dirSameName "index.html" [] "").map
          (fun p => (p.1.walks, p.2.Render p.1 2)) =
        some (1, some ("", some "html/template: index.html is an incomplete template")) ∧
      ((render (Reload (New "index.html" ".html") true) dirSameName "index.html" [] "").bind
          (fun p => (render p.1 dirSameNameEdited "index.html" [] "").map
            (fun q => (q.1.walks, q.2.Render q.1 2)))) =
        some (2, some ("", some "html/template: index.html is an incomplete template")) ∧
      ((render (Reload (New "views" ".html") true) dirSameName "index.html" [] "").bind
          (fun p => (render p.1 dirSameNameEdited "index.html" [] "").map
            (fun q => (q.1.walks, q.2.Render q.1 2)))) =
        some (2, some ("<p>second</p>", none)) := by
  decide

/-- C1, as the code has it: when the view and the non-empty layout are compiled
in the namespace `loadTemplate` leaves, the user table has no entry named
content, section or render, and every entry of the user table is one
`template.Funcs` accepts, `render` returns a render of the layout with the data
given, on the namespace of the engine; `content` is then bound to the closure
of the view and the data, and calling it gives what executing the view against
the data gives: the text written when that execution returns, and no return
when it does not. For the view `<p>{{.title}}</p>`,
the layout `<html>{{content}}</html>` and the title `Hi` the render writes
`<html><p>Hi</p></html>`. -/
theorem render_layout_composition :
    (∀ (w : World) (d : Directory) (v : String) (data : Data) (L : String) (w0 : World)
        (e0 : Option String) (ns : Namespace),
        loadTemplate w d = some (w0, e0) → w0.ns = some ns →
        ns.compiled v = true → ns.compiled L = true →
        L ≠ "" → FuncMap.get w.r.funcMap "content" = none →
        FuncMap.get w.r.funcMap "section" = none →
        FuncMap.get w.r.funcMap "render" = none →
        FuncMap.installable w.r.funcMap = true →
        ∃ w1 ns1, render w d v data L =
            some (w1, { Template := w1.r.template, Name := L, Data := data }) ∧
          w1.ns = some ns1 ∧ ns1.set = ns.set ∧
          FuncMap.get ns1.funcs "content" = some (Func.contentFn v data) ∧
          ∀ fuel,
            callFunc w1 (fuel + 1) (Func.contentFn v data) [] =
              (ExecuteTemplate (callFunc w1 fuel) ns1 v data).map
                (fun res => Except.ok (Value.html res.1)) ∧
            (∀ res, ExecuteTemplate (callFunc w1 fuel) ns1 v data = some res →
              ∀ n, fuel < n →
                callFunc w1 n (Func.contentFn v data) [] =
                  some (Except.ok (Value.html res.1))) ∧
            HTML.Render w1 fuel { Template := w1.r.template, Name := L, Data := data } =
              ExecuteTemplate (callFunc w1 fuel) ns1 L data) ∧
    (∀ fuel, (render (New "views" ".html") dirHi "index.html" [("title", "Hi")]
        "layouts/base.html").map (fun p => p.2.Render p.1 (fuel + 1)) =
      some (some ("<html><p>Hi</p></html>", none))) := by
  refine ⟨?_, ?_⟩
  · intro w d v data L w0 e0 ns hlt hns hv _ hL hc _ _ hi
    obtain ⟨a, ht, hn⟩ := World.ns_eq_some _ ns hns
    obtain ⟨w1, hh, hrd⟩ := render_isSome w d v data L w0 e0 a ns hlt ht hn (Or.inl hi)
    obtain ⟨h1, h2, _, ns1, h4, h5, h6⟩ := render_inv w d v data L w0 e0 a ns hlt ht hn w1 hh hrd
    have ht1 : w1.r.template = some a := by rw [h2]; exact ht
    have hns1 : w1.ns = some ns1 := World.ns_of w1 a ns1 ht1 h4
    have hcall : ∀ fuel, callFunc w1 (fuel + 1) (Func.contentFn v data) [] =
        (ExecuteTemplate (callFunc w1 fuel) ns1 v data).map
          (fun res => Except.ok (Value.html res.1)) := by
      intro fuel
      simp only [callFunc, captureTemplate, hns1]
      cases ExecuteTemplate (callFunc w1 fuel) ns1 v data with
      | none => rfl
      | some res => rfl
    refine ⟨w1, ns1, ?_, hns1, h5, ?_, ?_⟩
    · rw [hrd, h1, ht1]; simp [hL]
    · rw [h6]
      simp only [hL, compiled_Lookup ns v hv, ne_eq, not_false_eq_true, and_self, if_true]
      rw [FuncMap.get_addFuncs, loadFuncMap_get, hc]
      simp [FuncMap.get]
    · intro fuel
      refine ⟨hcall fuel, ?_, ?_⟩
      · intro res hres n hn
        apply callFunc_mono w1 (fuel + 1) n hn
        rw [hcall fuel, hres]
        rfl
      · simp [HTML.Render, ht1, h4, hL]
  · intro fuel
    rfl

/-- C1, as the code has it, at the layout example. -/
theorem render_layout_composition_witness :
    ∃ w1 ns1, render (New "views" ".html") dirHi "index.html" [("title", "Hi")]
          "layouts/base.html" =
        some (w1, { Template := w1.r.template, Name := "layouts/base.html",
                    Data := [("title", "Hi")] }) ∧
      w1.ns = some ns1 ∧
      ns1.set = nsHi.set ∧
      FuncMap.get ns1.funcs "content" =
        some (Func.contentFn "index.html" [("title", "Hi")]) ∧
      ∀ fuel,
        callFunc w1 (fuel + 1) (Func.contentFn "index.html" [("title", "Hi")]) [] =
          (ExecuteTemplate (callFunc w1 fuel) ns1 "index.html" [("title", "Hi")]).map
            (fun res => Except.ok (Value.html res.1)) ∧
        (∀ res, ExecuteTemplate (callFunc w1 fuel) ns1 "index.html" [("title", "Hi")] =
            some res →
          ∀ n, fuel < n →
            callFunc w1 n (Func.contentFn "index.html" [("title", "Hi")]) [] =
              some (Except.ok (Value.html res.1))) ∧
        HTML.Render w1 fuel { Template := w1.r.template, Name := "layouts/base.html",
                              Data := [("title", "Hi")] } =
          ExecuteTemplate (callFunc w1 fuel) ns1 "layouts/base.html" [("title", "Hi")] :=
  render_layout_composition.1 (New "views" ".html") dirHi "index.html" [("title", "Hi")]
    "layouts/base.html" worldHi none nsHi
    (by decide) (by decide) (by decide) (by decide) (by decide) (by decide) (by decide)
    (by decide) (by decide)

/-- C1 as stated fails: the namespace of `dirHi` is cached with the view and the
layout compiled, the user table has no entry named content, section or render,
and a function was registered under the name `my-func`, which is no
identifier; `render` for the view and the layout panics in `template.Funcs`
and returns no render. -/
theorem render_layout_composition_counterexample :
    (AddFunc worldHi "my-func" lateFunc).ns.map
        (fun ns => (ns.compiled "index.html", ns.compiled "layouts/base.html")) =
        some (true, true) ∧
      FuncMap.get (AddFunc worldHi "my-func" lateFunc).r.funcMap "content" = none ∧
      FuncMap.get (AddFunc worldHi "my-func" lateFunc).r.funcMap "section" = none ∧
      FuncMap.get (AddFunc worldHi "my-func" lateFunc).r.funcMap "render" = none ∧
      render (AddFunc worldHi "my-func" lateFunc) dirHi "index.html" [("title", "Hi")]
        "layouts/base.html" = none := by
  decide

/-- C5, as the code has it: after `loadFunc` for a view that is in the
namespace, with no user function named section and a user table that
`template.Funcs` accepts, `section` is bound to the closure of the view and the
data. Called with a section name, the closure gives what executing the derived
template against the data gives: the text written when that execution returns,
and no return when it does not. When no compiled template has the derived
name it returns the empty text and no error, and a call of `section` in the
layout then writes nothing and does not fail. -/
theorem section_missing_tolerance (w : World) (v : String) (data : Data) (ns : Namespace)
    (hns : w.ns = some ns) (hv : ns.Lookup v = true)
    (hu : FuncMap.get w.r.funcMap "section" = none)
    (hi : FuncMap.installable w.r.funcMap = true) :
    ∃ w1 ns1, loadFunc w v data = some w1 ∧ w1.ns = some ns1 ∧ ns1.set = ns.set ∧
      FuncMap.get ns1.funcs "section" = some (Func.sectionFn v data) ∧
      ∀ (fuel : Nat) (s : String),
        callFunc w1 (fuel + 1) (Func.sectionFn v data) [s] =
          (ExecuteTemplate (callFunc w1 fuel) ns1
            (fullSectionName w1.r.extension v s) data).map
            (fun res => Except.ok (Value.html res.1)) ∧
        (∀ res, ExecuteTemplate (callFunc w1 fuel) ns1
            (fullSectionName w1.r.extension v s) data = some res →
          ∀ n, fuel < n →
            callFunc w1 n (Func.sectionFn v data) [s] =
              some (Except.ok (Value.html res.1))) ∧
        (ns1.compiled (fullSectionName w1.r.extension v s) = false →
          callFunc w1 (fuel + 1) (Func.sectionFn v data) [s] =
              some (Except.ok (Value.html "")) ∧
          ∀ data1, execNode (callFunc w1 (fuel + 1)) ns1.funcs data1
              (Node.call "section" [Arg.lit s]) = some (Except.ok "") ∧
            ∀ rest, execNodes (callFunc w1 (fuel + 1)) ns1.funcs data1
                (Node.call "section" [Arg.lit s] :: rest) =
              execNodes (callFunc w1 (fuel + 1)) ns1.funcs data1 rest) := by
  obtain ⟨w1, ns1, h1, _, _, h4, h5, h6⟩ := loadFunc_ns w v data ns hns (Or.inl hi)
  have hsec : FuncMap.get ns1.funcs "section" = some (Func.sectionFn v data) := by
    rw [h6]
    simp only [hv, if_true]
    rw [FuncMap.get_addFuncs, loadFuncMap_get, hu]
    simp [FuncMap.get]
  refine ⟨w1, ns1, h1, h4, h5, hsec, ?_⟩
  intro fuel s
  have hcall : callFunc w1 (fuel + 1) (Func.sectionFn v data) [s] =
      (ExecuteTemplate (callFunc w1 fuel) ns1
        (fullSectionName w1.r.extension v s) data).map
        (fun res => Except.ok (Value.html res.1)) := by
    simp only [callFunc, captureTemplate, h4, List.headD]
    cases ExecuteTemplate (callFunc w1 fuel) ns1 (fullSectionName w1.r.extension v s) data with
    | none => rfl
    | some res => rfl
  refine ⟨hcall, ?_, ?_⟩
  · intro res hres n hn
    apply callFunc_mono w1 (fuel + 1) n hn
    rw [hcall, hres]
    rfl
  · intro hmiss
    obtain ⟨e, he⟩ := ExecuteTemplate_not_compiled (callFunc w1 fuel) ns1 _ data hmiss
    have hempty : callFunc w1 (fuel + 1) (Func.sectionFn v data) [s] =
        some (Except.ok (Value.html "")) := by
      rw [hcall, he]
      rfl
    refine ⟨hempty, ?_⟩
    intro data1
    have hnode : execNode (callFunc w1 (fuel + 1)) ns1.funcs data1
        (Node.call "section" [Arg.lit s]) = some (Except.ok "") := by
      simp [execNode, hsec, Func.numIn, evalArgs, hempty]
    refine ⟨hnode, ?_⟩
    intro rest
    simp only [execNodes, hnode]
    cases execNodes (callFunc w1 (fuel + 1)) ns1.funcs data1 rest with
    | none => rfl
    | some res => simp

/-- C5, as the code has it, at a layout that asks for the section `footer.html`
of `index.html`, which the directory does not have. -/
theorem section_missing_tolerance_witness :
    ∃ w1 ns1, loadFunc worldFooter "index.html" [("title", "Hi")] = some w1 ∧
      w1.ns = some ns1 ∧ ns1.set = nsFooter.set ∧
      FuncMap.get ns1.funcs "section" =
        some (Func.sectionFn "index.html" [("title", "Hi")]) ∧
      ∀ (fuel : Nat) (s : String),
        callFunc w1 (fuel + 1) (Func.sectionFn "index.html" [("title", "Hi")]) [s] =
          (ExecuteTemplate (callFunc w1 fuel) ns1
            (fullSectionName w1.r.extension "index.html" s) [("title", "Hi")]).map
            (fun res => Except.ok (Value.html res.1)) ∧
        (∀ res, ExecuteTemplate (callFunc w1 fuel) ns1
            (fullSectionName w1.r.extension "index.html" s) [("title", "Hi")] = some res →
          ∀ n, fuel < n →
            callFunc w1 n (Func.sectionFn "index.html" [("title", "Hi")]) [s] =
              some (Except.ok (Value.html res.1))) ∧
        (ns1.compiled (fullSectionName w1.r.extension "index.html" s) = false →
          callFunc w1 (fuel + 1) (Func.sectionFn "index.html" [("title", "Hi")]) [s] =
              some (Except.ok (Value.html "")) ∧
          ∀ data1, execNode (callFunc w1 (fuel + 1)) ns1.funcs data1
              (Node.call "section" [Arg.lit s]) = some (Except.ok "") ∧
            ∀ rest, execNodes (callFunc w1 (fuel + 1)) ns1.funcs data1
                (Node.call "section" [Arg.lit s] :: rest) =
              execNodes (callFunc w1 (fuel + 1)) ns1.funcs data1 rest) :=
  section_missing_tolerance worldFooter "index.html" [("title", "Hi")] nsFooter
    (by decide) (by decide) (by decide) (by decide)

/-- C5 as stated fails for a view that is not in the namespace and for a user
function named section. Over `dirFooter` no template is named
`nosuch-footer.html` or `index-footer.html`. For the view `nosuch.html`
`loadFunc` installs nothing, the layout calls the placeholder `section`, which
takes no argument, and the render fails after `<html><hr>`. With a user
function registered as `section` the render of `index.html` writes the text of
the user function where the section is. With a function registered under the
name `my-func`, which is no identifier, `loadFunc` panics. -/
theorem section_missing_tolerance_counterexample :
    nsFooter.compiled (fullSectionName ".html" "nosuch.html" "footer.html") = false ∧
      nsFooter.compiled (fullSectionName ".html" "index.html" "footer.html") = false ∧
      (render (New "views" ".html") dirFooter "nosuch.html" [("title", "Hi")]
          "base.html").map (fun p => p.2.Render p.1 2) =
        some (some ("<html><hr>", some "wrong number of args for section")) ∧
      (render (AddFunc (New "views" ".html") "section" userSection) dirFooter "index.html"
          [("title", "Hi")] "base.html").map (fun p => p.2.Render p.1 2) =
        some (some ("<html><p>Hi</p><hr>USER</html>", none)) ∧
      loadFunc (AddFunc worldFooter "my-func" lateFunc) "index.html" [("title", "Hi")] =
        none := by
  decide

/-- The layout of `dirFooter` rendered for `index.html`: the missing footer
section writes nothing and the render succeeds. -/
theorem footer_render_succeeds :
    ∀ fuel, (render (New "views" ".html") dirFooter "index.html" [("title", "Hi")]
        "base.html").map (fun p => p.2.Render p.1 (fuel + 2)) =
      some (some ("<html><p>Hi</p><hr></html>", none)) := by
  intro fuel
  rfl

/-- C10, as the code has it: in a namespace left by a compile pass every
template the pass compiled sees a name of the user table bound to the function
of the user, the names content, section and render included, and sees the
placeholder for each of the three names the user table does not have; a pass
that compiles no template binds nothing. After `loadFunc` for a view of the
namespace, with a user table that `template.Funcs` accepts, a name of the user
table is still bound to the function of the user, and each of the three names
the user table does not have is bound to the closure of the view and the
data. -/
theorem user_functions_take_precedence :
    (∀ (w : World) (d : Directory) (w1 : World) (e : Option String) (ns : Namespace)
        (t : String),
        compilePass w d = some (w1, e) → w1.ns = some ns → ns.compiled t = true →
        (∀ key f, FuncMap.get w.r.funcMap key = some f → FuncMap.get ns.funcs key = some f) ∧
        (FuncMap.get w.r.funcMap "content" = none →
          FuncMap.get ns.funcs "content" = some Func.emptyContent) ∧
        (FuncMap.get w.r.funcMap "section" = none →
          FuncMap.get ns.funcs "section" = some Func.emptySection) ∧
        (FuncMap.get w.r.funcMap "render" = none →
          FuncMap.get ns.funcs "render" = some Func.emptyRender)) ∧
    (∀ (w : World) (v : String) (data : Data) (ns : Namespace),
        w.ns = some ns → ns.Lookup v = true → FuncMap.installable w.r.funcMap = true →
        ∃ w1 ns1, loadFunc w v data = some w1 ∧ w1.ns = some ns1 ∧
          (∀ key f, FuncMap.get w.r.funcMap key = some f →
            FuncMap.get ns1.funcs key = some f) ∧
          (FuncMap.get w.r.funcMap "content" = none →
            FuncMap.get ns1.funcs "content" = some (Func.contentFn v data)) ∧
          (FuncMap.get w.r.funcMap "section" = none →
            FuncMap.get ns1.funcs "section" = some (Func.sectionFn v data)) ∧
          (FuncMap.get w.r.funcMap "render" = none →
            FuncMap.get ns1.funcs "render" = some (Func.renderFn v data))) ∧
    (∀ (w : World) (d : Directory) (w1 : World) (e : Option String) (ns : Namespace),
        compilePass w d = some (w1, e) → w1.ns = some ns →
        (∀ ent ∈ d.entries, ent.info = none ∨ ent.info = some ⟨true⟩ ∨
          filepathExt ent.rel ≠ w.r.extension) →
        ns.funcs = []) := by
  refine ⟨?_, ?_, ?_⟩
  · intro w d w1 e ns t hc hns ht
    have hI := compilePass_installed w d w1 e ns hc hns ⟨t, ht⟩
    refine ⟨?_, ?_, ?_, ?_⟩
    · intro key f hf
      apply hI
      rw [FuncMap.get_addFuncs, hf]
    · intro hf
      apply hI
      rw [FuncMap.get_addFuncs, hf]
      rfl
    · intro hf
      apply hI
      rw [FuncMap.get_addFuncs, hf]
      rfl
    · intro hf
      apply hI
      rw [FuncMap.get_addFuncs, hf]
      rfl
  · intro w v data ns hns hv hi
    obtain ⟨w1, ns1, h1, _, _, h4, _, h6⟩ := loadFunc_ns w v data ns hns (Or.inl hi)
    simp only [hv, if_true] at h6
    refine ⟨w1, ns1, h1, h4, ?_, ?_, ?_, ?_⟩
    · intro key f hf
      rw [h6, FuncMap.get_addFuncs, loadFuncMap_get, hf]
    · intro hf
      rw [h6, FuncMap.get_addFuncs, loadFuncMap_get, hf]
      rfl
    · intro hf
      rw [h6, FuncMap.get_addFuncs, loadFuncMap_get, hf]
      rfl
    · intro hf
      rw [h6, FuncMap.get_addFuncs, loadFuncMap_get, hf]
      rfl
  · intro w d w1 e ns hc hns hskip
    obtain ⟨ns1, g1, g2, _⟩ := compilePass_ns w d w1 e hc
    rw [g2] at hns
    cases hns
    exact Walk_skips w.r d.entries _ _ _ hskip g1

/-- C10, as the code has it, on an engine whose user table binds `content`:
after the compile pass of `dirHi`. -/
theorem user_functions_take_precedence_witness :
    compilePass (AddFunc (New "views" ".html") "content" bannerFunc) dirHi =
        some (worldBanner, none) ∧
      worldBanner.ns = some nsBanner ∧ nsBanner.compiled "index.html" = true ∧
      ((∀ key f, FuncMap.get (AddFunc (New "views" ".html") "content" bannerFunc).r.funcMap
            key = some f → FuncMap.get nsBanner.funcs key = some f) ∧
        (FuncMap.get (AddFunc (New "views" ".html") "content" bannerFunc).r.funcMap
            "content" = none →
          FuncMap.get nsBanner.funcs "content" = some Func.emptyContent) ∧
        (FuncMap.get (AddFunc (New "views" ".html") "content" bannerFunc).r.funcMap
            "section" = none →
          FuncMap.get nsBanner.funcs "section" = some Func.emptySection) ∧
        (FuncMap.get (AddFunc (New "views" ".html") "content" bannerFunc).r.funcMap
            "render" = none →
          FuncMap.get nsBanner.funcs "render" = some Func.emptyRender)) ∧
      FuncMap.get nsBanner.funcs "content" = some bannerFunc :=
  ⟨by decide, by decide, by decide,
   user_functions_take_precedence.1 (AddFunc (New "views" ".html") "content" bannerFunc)
      dirHi worldBanner none nsBanner "index.html" (by decide) (by decide) (by decide),
   by decide⟩

/-- C10 as stated fails: the user table binds `content`, and after the compile
pass over a directory without a matching file the name `content` has no
binding in the namespace, neither the function of the user nor the
placeholder; the name `section`, which the user table does not have, has no
placeholder either. With a function registered under the name `my-func`, which
is no identifier, `loadFunc` for a view of the namespace panics. -/
theorem user_functions_take_precedence_counterexample :
    FuncMap.get (AddFunc (New "views" ".html") "content" bannerFunc).r.funcMap "content" =
        some bannerFunc ∧
      (compilePass (AddFunc (New "views" ".html") "content" bannerFunc) dirEmpty).map
        (fun p => (p.2, p.1.ns.map (fun ns =>
          (FuncMap.get ns.funcs "content", FuncMap.get ns.funcs "section")))) =
        some (none, some (none, none)) ∧
      worldBanner.ns.map (fun ns => ns.Lookup "index.html") = some true ∧
      loadFunc (AddFunc worldBanner "my-func" lateFunc) "index.html" [] = none := by
  decide

/-- C7, as the code has it: a function in the user table when a compile pass
runs is bound in the table every compiled template sees. With reload off, a
function registered after the namespace was cached, under a name not bound
there, stays unbound through every sequence of render calls that have no layout
or whose view is not in the namespace. The first render with a layout for a
view of the namespace binds it, through `loadFunc` and without a compile pass,
when the user table is one `template.Funcs` accepts. -/
theorem function_visibility_timing :
    (∀ (w : World) (d : Directory) (key : String) (f : Func) (w1 : World)
        (e : Option String) (ns : Namespace) (t : String),
        (w.r.reload = true ∨ w.r.template = none) →
        loadTemplate (AddFunc w key f) d = some (w1, e) → w1.ns = some ns →
        ns.compiled t = true → FuncMap.get ns.funcs key = some f) ∧
    (∀ (w : World) (ns : Namespace) (key : String) (f : Func) (cs : List Call),
        w.r.reload = false → w.ns = some ns → FuncMap.get ns.funcs key = none →
        (∀ c ∈ cs, c.layout = "" ∨ ns.Lookup c.name = false) →
        renders (AddFunc w key f) cs = some (AddFunc w key f) ∧
          (AddFunc w key f).ns = some ns) ∧
    (∀ (w : World) (ns : Namespace) (key : String) (f : Func) (d : Directory) (v : String)
        (data : Data) (L : String),
        w.r.reload = false → w.ns = some ns → ns.Lookup v = true → L ≠ "" →
        FuncMap.installable (AddFunc w key f).r.funcMap = true →
        ∃ w1 h ns1, render (AddFunc w key f) d v data L = some (w1, h) ∧
          w1.walks = w.walks ∧ w1.ns = some ns1 ∧ ns1.set = ns.set ∧
          FuncMap.get ns1.funcs key = some f) := by
  refine ⟨?_, ?_, ?_⟩
  · intro w d key f w1 e ns t h hl hns ht
    rw [loadTemplate_compile (AddFunc w key f) d h] at hl
    have hI := compilePass_installed (AddFunc w key f) d w1 e ns hl hns ⟨t, ht⟩
    apply hI
    rw [FuncMap.get_addFuncs]
    simp [AddFunc, FuncMap.get_insert]
  · intro w ns key f cs hr hns _ hcs
    have hns1 : (AddFunc w key f).ns = some ns := hns
    exact ⟨renders_unchanged cs (AddFunc w key f) ns hr hns1 hcs, hns1⟩
  · intro w ns key f d v data L hr hns hv hL hi
    have hns1 : (AddFunc w key f).ns = some ns := hns
    obtain ⟨a, ht, hn⟩ := World.ns_eq_some _ ns hns1
    have hc : loadTemplate (AddFunc w key f) d = some (AddFunc w key f, none) :=
      loadTemplate_cached _ d hr (by simp [ht])
    obtain ⟨w1, hh, hrd⟩ :=
      render_isSome (AddFunc w key f) d v data L _ none a ns hc ht hn (Or.inl hi)
    obtain ⟨_, h2, h3, ns1, h4, h5, h6⟩ :=
      render_inv (AddFunc w key f) d v data L _ none a ns hc ht hn w1 hh hrd
    refine ⟨w1, hh, ns1, hrd, h3, World.ns_of w1 a ns1 (by rw [h2]; exact ht) h4, h5, ?_⟩
    rw [h6]
    simp only [hL, hv, ne_eq, not_false_eq_true, and_self, if_true]
    rw [FuncMap.get_addFuncs, loadFuncMap_get]
    simp [AddFunc, FuncMap.get_insert]

/-- C7, as the code has it, at the cached namespace of `dirHi`: a layout render
after the late registration. -/
theorem function_visibility_timing_witness :
    ∃ w1 h ns1, render (AddFunc worldHi "late" lateFunc) dirHi "index.html" []
        "layouts/base.html" = some (w1, h) ∧
      w1.walks = worldHi.walks ∧ w1.ns = some ns1 ∧ ns1.set = nsHi.set ∧
      FuncMap.get ns1.funcs "late" = some lateFunc :=
  function_visibility_timing.2.2 worldHi nsHi "late" lateFunc dirHi "index.html" []
    "layouts/base.html" (by decide) (by decide) (by decide) (by decide) (by decide)

/-- C7 as stated fails: with reload off and the namespace of `dirHi` cached
without the name `late`, registering `late` and rendering `index.html` with the
layout leaves `late` bound in the function table of the namespace, and no
compile pass ran. In the same way a function registered as `greet` after the
namespace of `dirGreet` was cached is the one the next layout render calls. A
function registered late under the name `my-func`, which is no identifier,
makes the next layout render panic. -/
theorem function_visibility_timing_counterexample :
    worldHi.r.reload = false ∧
      worldHi.ns.map (fun ns => FuncMap.get ns.funcs "late") = some none ∧
      ((renders (AddFunc worldHi "late" lateFunc)
          [⟨dirHi, "index.html", [], "layouts/base.html"⟩]).bind World.ns).map
        (fun ns => FuncMap.get ns.funcs "late") = some (some lateFunc) ∧
      (renders (AddFunc worldHi "late" lateFunc)
          [⟨dirHi, "index.html", [], "layouts/base.html"⟩]).map World.walks =
        some worldHi.walks ∧
      worldGreet.r.reload = false ∧ worldGreet.walks = 1 ∧
      (render worldGreet dirGreet "index.html" [] "").map (fun p => p.2.Render p.1 2) =
        some (some ("<p>early</p>", none)) ∧
      (render worldGreet dirGreet "index.html" [] "base.html").map
        (fun p => (p.1.walks, p.2.Render p.1 2)) =
        some (1, some ("<html><p>late</p></html>", none)) ∧
      render (AddFunc worldHi "my-func" lateFunc) dirHi "index.html" []
        "layouts/base.html" = none := by
  decide

/-- C6, as the code has it: the closure `section` executes the template named
by the view name with every occurrence of the extension removed, leftmost
first, a hyphen and the section name. For a non-empty extension `e`: a view
name in which `e` does not occur is kept whole; in a view name
`p ++ e ++ rest` whose first occurrence of `e` is the one shown, that
occurrence goes and the removal goes on in `rest`; so when `e` occurs in
`b ++ e` at the end only the name is `b`, a hyphen and the section name. An
empty extension leaves the view name whole. -/
theorem section_name_derivation :
    (∀ (w : World) (fuel : Nat) (v : String) (data : Data) (s : String),
        callFunc w (fuel + 1) (Func.sectionFn v data) [s] =
          captureTemplate w (callFunc w fuel)
            (stringsRemoveAll v w.r.extension ++ "-" ++ s) data) ∧
    (∀ (e v s : String),
        (∀ i, i < v.length → occursAt e.data v.data i = false) →
        fullSectionName e v s = v ++ "-" ++ s) ∧
    (∀ (e p rest s : String), e ≠ "" →
        (∀ i, i < p.length → occursAt e.data (p ++ e ++ rest).data i = false) →
        fullSectionName e (p ++ e ++ rest) s = p ++ stringsRemoveAll rest e ++ "-" ++ s) ∧
    (∀ (e b s : String), e ≠ "" →
        (∀ i, i < b.length → occursAt e.data (b ++ e).data i = false) →
        fullSectionName e (b ++ e) s = b ++ "-" ++ s) ∧
    (∀ (v s : String), fullSectionName "" v s = v ++ "-" ++ s) := by
  refine ⟨?_, ?_, ?_, ?_, ?_⟩
  · intro w fuel v data s
    rfl
  · intro e v s hocc
    simp only [fullSectionName, stringsRemoveAll_absent e v hocc]
  · intro e p rest s he hocc
    simp only [fullSectionName, stringsRemoveAll_first e p rest he hocc]
  · intro e b s he hocc
    have h := stringsRemoveAll_first e b "" he (by simpa using hocc)
    have h0 : stringsRemoveAll "" e = "" := rfl
    simp only [String.append_empty, h0] at h
    simp only [fullSectionName, h]
  · intro v s
    simp [fullSectionName, stringsRemoveAll, removeAllAux_empty]

/-- C6, as the code has it, at the view `a.html/index.html` and the section
`footer`: the extension in the directory part goes, and so does the one at the
end. -/
theorem section_name_derivation_witness :
    (".html" ≠ "" ∧
      fullSectionName ".html" ("a" ++ ".html" ++ "/index.html") "footer" =
        "a" ++ stringsRemoveAll "/index.html" ".html" ++ "-" ++ "footer") ∧
    (".html" ≠ "" ∧
      fullSectionName ".html" ("index" ++ ".html") "footer" = "index" ++ "-" ++ "footer") :=
  ⟨⟨by decide, section_name_derivation.2.2.1 ".html" "a" "/index.html" "footer"
      (by decide) (by decide)⟩,
   ⟨by decide, section_name_derivation.2.2.2.1 ".html" "index" "footer"
      (by decide) (by decide)⟩⟩

/-- C6 as stated fails: the view `a.html/index.html` ends with the extension
`.html`, and for the section `footer` the claim names `a.html/index-footer`,
while the closure looks up `a/index-footer`; over `dirSection` the layout gets
the text of `a/index-footer.html`. -/
theorem section_name_derivation_counterexample :
    "a.html/index.html" = "a.html/index" ++ ".html" ∧
      fullSectionName ".html" "a.html/index.html" "footer" = "a/index-footer" ∧
      fullSectionName ".html" "a.html/index.html" "footer" ≠
        "a.html/index" ++ "-" ++ "footer" ∧
      (render (New "views" ".html") dirSection "a.html/index.html" [] "base.html").map
        (fun p => p.2.Render p.1 2) = some (some ("footer of a/index", none)) := by
  decide

end Ghtml
